import Mathlib

/-!
Formal model of the hyperchat room/membership server.

The repository contains two implementations of the same socket server:
`src/server.js` (modelled below in namespace `SJ`) and the unnamed sibling
file `src/unnamed/part_000` (modelled in namespace `P0`).  Both keep a map
of connected users, a map of rooms (with name, PIN, history and member set)
and handle the events `set initial username`, `change username`,
`create room`, `join room by pin`, `switch room`, `leave current room`,
`chat message`, `chat action` and `disconnect`.

State is modelled with insertion-ordered association lists mirroring the
semantics of JavaScript `Map` (`set` updates in place, otherwise appends)
and JavaScript `Set` (`add` appends if absent, `delete` filters).  Every
transition is a pure function from a state, a socket id and the payload to
the new state together with the list of emitted socket notifications.
`Date.now()` is modelled by an explicit `now : Nat` argument.
-/

/-- Model of JavaScript `String.prototype.trim`: drop leading and trailing
whitespace characters. -/
def jsTrim (s : String) : String :=
  ⟨((s.data.dropWhile Char.isWhitespace).reverse.dropWhile Char.isWhitespace).reverse⟩

/-- Lookup in a JavaScript-`Map`-like association list (`Map.prototype.get`). -/
def mapFind (k : String) (l : List (String × α)) : Option α :=
  (l.find? (fun p => p.1 = k)).map (·.2)

/-- `Map.prototype.set`: replace the entry in place if the key is present,
otherwise append a new entry. -/
def mapSet (k : String) (v : α) (l : List (String × α)) : List (String × α) :=
  if l.any (fun p => p.1 = k) then
    l.map (fun p => if p.1 = k then (k, v) else p)
  else
    l ++ [(k, v)]

/-- `Map.prototype.delete`: remove the entry with the given key. -/
def mapErase (k : String) (l : List (String × α)) : List (String × α) :=
  l.filter (fun p => ¬ p.1 = k)

/-- `Set.prototype.add` on a duplicate-free list of strings. -/
def setAdd (x : String) (s : List String) : List String :=
  if x ∈ s then s else s ++ [x]

/-- `Set.prototype.delete` on a list of strings. -/
def setDel (x : String) (s : List String) : List String :=
  s.filter (fun y => ¬ y = x)

/-- JavaScript truthiness of a nullable string (`null` and `""` are falsy). -/
def truthy : Option String → Bool
  | none => false
  | some s => s ≠ ""

theorem mapFind_nil (k : String) : @mapFind α k [] = none := rfl

theorem mapFind_cons_of_eq {k : String} {p : String × α} (h : p.1 = k)
    (t : List (String × α)) : mapFind k (p :: t) = some p.2 := by
  unfold mapFind
  rw [List.find?_cons_of_pos _ (by simpa using h)]
  rfl

theorem mapFind_cons_of_ne {k : String} {p : String × α} (h : ¬ p.1 = k)
    (t : List (String × α)) : mapFind k (p :: t) = mapFind k t := by
  unfold mapFind
  rw [List.find?_cons_of_neg _ (by simpa using h)]

theorem mapFind_replace_ne {k s : String} (h : s ≠ k) (v : α) (l : List (String × α)) :
    mapFind s (l.map (fun p => if p.1 = k then (k, v) else p)) = mapFind s l := by
  induction l with
  | nil => rfl
  | cons p t ih =>
    by_cases hp : p.1 = k
    · rw [List.map_cons, if_pos hp,
        mapFind_cons_of_ne (show ¬ ((k, v) : String × α).1 = s from fun hh => h hh.symm),
        mapFind_cons_of_ne (by rw [hp]; exact fun hh => h hh.symm)]
      exact ih
    · rw [List.map_cons, if_neg hp]
      by_cases hs : p.1 = s
      · rw [mapFind_cons_of_eq hs, mapFind_cons_of_eq hs]
      · rw [mapFind_cons_of_ne hs, mapFind_cons_of_ne hs]
        exact ih

theorem mapFind_replace_self {k : String} (v : α) (l : List (String × α))
    (h : l.any (fun p => p.1 = k)) :
    mapFind k (l.map (fun p => if p.1 = k then (k, v) else p)) = some v := by
  induction l with
  | nil => simp at h
  | cons p t ih =>
    by_cases hp : p.1 = k
    · rw [List.map_cons, if_pos hp, mapFind_cons_of_eq (show ((k, v) : String × α).1 = k from rfl)]
    · simp only [List.any_cons, hp, decide_eq_true_eq, false_or] at h
      rw [List.map_cons, if_neg hp, mapFind_cons_of_ne hp]
      exact ih (by simpa using h)

theorem mapFind_set (s k : String) (v : α) (l : List (String × α)) :
    mapFind s (mapSet k v l) = if s = k then some v else mapFind s l := by
  unfold mapSet
  by_cases hany : l.any (fun p => p.1 = k)
  · rw [if_pos hany]
    by_cases hs : s = k
    · subst hs; rw [if_pos rfl, mapFind_replace_self v l hany]
    · rw [if_neg hs, mapFind_replace_ne hs]
  · rw [if_neg hany]
    by_cases hs : s = k
    · subst hs
      have hnone : l.find? (fun p => decide (p.1 = s)) = none := by
        rw [List.find?_eq_none]
        intro p hp
        simp only [List.any_eq_true, not_exists, not_and] at hany
        have := hany p hp
        simpa using this
      rw [if_pos rfl]
      unfold mapFind
      rw [List.find?_append, hnone]
      simp [List.find?]
    · rw [if_neg hs]
      unfold mapFind
      rw [List.find?_append]
      cases hfind : l.find? (fun p => decide (p.1 = s)) with
      | some p => simp
      | none =>
        have h2 : (decide (k = s)) = false := by simp [Ne.symm hs]
        simp [List.find?, h2]

theorem mapFind_erase (s k : String) (l : List (String × α)) :
    mapFind s (mapErase k l) = if s = k then none else mapFind s l := by
  induction l with
  | nil => simp [mapErase, mapFind]
  | cons p t ih =>
    by_cases hp : p.1 = k
    · rw [mapErase, List.filter_cons_of_neg (by simpa using hp)]
      rw [mapErase] at ih
      rw [ih]
      by_cases hs : s = k
      · rw [if_pos hs, if_pos hs]
      · rw [if_neg hs, if_neg hs, mapFind_cons_of_ne (by rw [hp]; exact fun hh => hs hh.symm)]
    · rw [mapErase, List.filter_cons_of_pos (by simpa using hp)]
      by_cases hps : p.1 = s
      · have h2 : ¬ s = k := by rw [← hps]; exact hp
        rw [mapFind_cons_of_eq hps, if_neg h2, mapFind_cons_of_eq hps]
      · rw [mapFind_cons_of_ne hps]
        rw [mapErase] at ih
        rw [ih]
        by_cases hs : s = k
        · rw [if_pos hs, if_pos hs]
        · rw [if_neg hs, if_neg hs, mapFind_cons_of_ne hps]

theorem mapFind_mem {k : String} {l : List (String × α)} {v : α}
    (h : mapFind k l = some v) : (k, v) ∈ l := by
  unfold mapFind at h
  cases hfind : l.find? (fun p => decide (p.1 = k)) with
  | none => rw [hfind] at h; simp at h
  | some p =>
    rw [hfind] at h
    simp only [Option.map_some'] at h
    have hmem := List.mem_of_find?_eq_some hfind
    have hkey := List.find?_some hfind
    simp only [decide_eq_true_eq] at hkey
    have hpv : p = (k, v) := by
      cases p with
      | mk a b =>
        simp only at hkey h
        rw [hkey, Option.some.inj h]
    rwa [hpv] at hmem

theorem mapKeys_set (k : String) (v : α) (l : List (String × α)) :
    (mapSet k v l).map Prod.fst =
      if l.any (fun p => p.1 = k) then l.map Prod.fst else l.map Prod.fst ++ [k] := by
  unfold mapSet
  by_cases hany : l.any (fun p => p.1 = k)
  · rw [if_pos hany, if_pos hany, List.map_map]
    congr 1
    funext p
    by_cases hp : p.1 = k <;> simp [hp]
  · rw [if_neg hany, if_neg hany]; simp

theorem nodupKeys_set {k : String} {v : α} {l : List (String × α)}
    (h : (l.map Prod.fst).Nodup) : ((mapSet k v l).map Prod.fst).Nodup := by
  rw [mapKeys_set]
  by_cases hany : l.any (fun p => p.1 = k)
  · rwa [if_pos hany]
  · rw [if_neg hany]
    have hk : k ∉ l.map Prod.fst := by
      intro hmem
      rcases List.mem_map.mp hmem with ⟨p, hp, hpk⟩
      have hc : ∃ p ∈ l, p.1 = k := ⟨p, hp, hpk⟩
      have : l.any (fun p => p.1 = k) := by simpa using hc
      exact hany this
    simp only [List.nodup_append, List.nodup_singleton]
    refine ⟨h, trivial, ?_⟩
    intro a ha hb
    have hb1 : a = k := by simpa using hb
    exact hk (hb1 ▸ ha)

theorem nodupKeys_erase {k : String} {l : List (String × α)}
    (h : (l.map Prod.fst).Nodup) : ((mapErase k l).map Prod.fst).Nodup := by
  have hsub : (mapErase k l).Sublist l := List.filter_sublist l
  exact (hsub.map Prod.fst).nodup h

theorem mem_setAdd {x y : String} {s : List String} :
    y ∈ setAdd x s ↔ y = x ∨ y ∈ s := by
  unfold setAdd
  by_cases hx : x ∈ s
  · rw [if_pos hx]
    constructor
    · exact .inr
    · rintro (rfl | h) <;> [exact hx; exact h]
  · rw [if_neg hx]
    simp [or_comm]

theorem mem_setDel {x y : String} {s : List String} :
    y ∈ setDel x s ↔ y ∈ s ∧ y ≠ x := by
  unfold setDel
  simp [List.mem_filter]

theorem setDel_eq_nil_iff {x : String} {s : List String} :
    setDel x s = [] ↔ ∀ y ∈ s, y = x := by
  unfold setDel
  rw [List.filter_eq_nil_iff]
  simp

/-! ## Shared data shapes: history events, room summaries, notifications -/

/-- A history entry or chat payload.  Fields that a given JavaScript object
literal omits are modelled as `none`. -/
structure Event where
  kind : Option String
  user : Option String
  text : String
  timestamp : Nat
  room : Option String
deriving Repr, DecidableEq

/-- One entry of the room list sent to clients: id, display name and whether
a PIN is required.  The PIN value itself has no field here. -/
structure RoomSummary where
  id : String
  name : String
  hasPin : Bool
deriving Repr, DecidableEq

/-- The payloads the two servers emit. -/
inductive Payload where
  | feedback (msg : String)
  | usernameAccepted (name : String)
  | usernameRejected (msg : String)
  | usernameUpdated (name : String)
  | updateUserList (room : String) (users : List String)
  | userList (users : List String)
  | updateRoomList (rooms : List RoomSummary)
  | chatMessage (e : Event)
  | chatAction (e : Event)
  | roomJoinedSuccess (roomName : String) (roomId : String)
      (history : List Event) (usersInRoom : List String)
  | userTyping (username : String) (room : String)
  | userStopTyping (username : String) (room : String)
  | enteredLobby
deriving Repr, DecidableEq

/-- Where a payload is sent: `socket.emit`, `io.to(room).emit`,
`socket.to(room).emit` (everyone in the room except the sender) or
`io.emit` (everyone). -/
inductive Notify where
  | toSocket (sid : String) (p : Payload)
  | toRoom (room : String) (p : Payload)
  | toRoomExcept (room : String) (sid : String) (p : Payload)
  | toAll (p : Payload)
deriving Repr, DecidableEq

/-! ## Model of `src/server.js` -/

namespace SJ

/-- `users` map value: `{ username, currentRoomId }`. -/
structure UserData where
  username : Option String
  currentRoomId : Option String
deriving Repr, DecidableEq

/-- `rooms` map value: `{ name, pin, history, usersInRoom: Set<username> }`. -/
structure Room where
  name : String
  pin : Option String
  history : List Event
  usersInRoom : List String
deriving Repr, DecidableEq

/-- The whole mutable server state of `server.js`. -/
structure State where
  users : List (String × UserData)
  rooms : List (String × Room)
  userSocketRooms : List (String × List String)
deriving Repr, DecidableEq

def GENERAL_ROOM_ID : String := "general"

/-- The state right after startup: only the `general` room exists. -/
def initState : State :=
  { users := []
    rooms := [(GENERAL_ROOM_ID, { name := "General", pin := none, history := [], usersInRoom := [] })]
    userSocketRooms := [] }

/-- `getUsersInRoom`: member names of a room, `[]` if the room is unknown. -/
def getUsersInRoom (st : State) (roomId : String) : List String :=
  match mapFind roomId st.rooms with
  | some room => room.usersInRoom
  | none => []

/-- The payload built by `broadcastUserList`. -/
def userListNotify (st : State) (roomId : String) : Notify :=
  .toRoom roomId (.updateUserList roomId (getUsersInRoom st roomId))

/-- `availableRooms` as computed in `broadcastRoomList`:
`{ id, name, hasPin: room.pin !== null }`. -/
def availableRooms (st : State) : List RoomSummary :=
  st.rooms.map (fun p => { id := p.1, name := p.2.name, hasPin := p.2.pin.isSome })

/-- The broadcast performed by `broadcastRoomList`. -/
def roomListNotify (st : State) : Notify :=
  .toAll (.updateRoomList (availableRooms st))

/-- Update the per-socket set in `userSocketRooms` if the socket is known. -/
def modifySocketRooms (sid : String) (f : List String → List String)
    (l : List (String × List String)) : List (String × List String) :=
  match mapFind sid l with
  | some s => mapSet sid (f s) l
  | none => l

/-- `leaveRoom(socket, roomId, isDisconnect)`.  Removes the user's name from
the room, records and broadcasts a system "left" event, deletes the room if
it has become empty and is not the general room, and (unless disconnecting)
clears the user's `currentRoomId`. -/
def leaveRoom (st : State) (sid : String) (roomId : String) (isDisconnect : Bool)
    (now : Nat) : State × List Notify :=
  match mapFind sid st.users, mapFind roomId st.rooms with
  | some userData, some room =>
    let sr := modifySocketRooms sid (setDel roomId) st.userSocketRooms
    let members :=
      match userData.username with
      | some n => setDel n room.usersInRoom
      | none => room.usersInRoom
    let uname := match userData.username with | some n => n | none => "null"
    let leaveMessage : Event :=
      { kind := some "system", user := none
        text := "<strong>" ++ uname ++ "</strong> has left the room."
        timestamp := now, room := some roomId }
    let room1 := { room with usersInRoom := members, history := room.history ++ [leaveMessage] }
    let st1 := { st with rooms := mapSet roomId room1 st.rooms, userSocketRooms := sr }
    let ns1 := [Notify.toRoom roomId (.chatMessage leaveMessage), userListNotify st1 roomId]
    let stDel :=
      if members.isEmpty && roomId ≠ GENERAL_ROOM_ID then
        { st1 with rooms := mapErase roomId st1.rooms }
      else st1
    let ns2 :=
      if members.isEmpty && roomId ≠ GENERAL_ROOM_ID then [roomListNotify stDel] else []
    let stFin :=
      if isDisconnect then stDel
      else { stDel with users := mapSet sid { userData with currentRoomId := none } stDel.users }
    (stFin, ns1 ++ ns2)
  | _, _ => (st, [])

/-- `joinRoom(socket, roomId, pin = null)`.  Requires a username, an existing
room and (for non-general rooms with a truthy PIN) a matching `pin` argument;
rejects a re-join of the current room; otherwise leaves the previous room,
adds the user, records the join event and notifies the joiner and the room. -/
def joinRoom (st : State) (sid : String) (roomId : String) (pin : Option String)
    (now : Nat) : State × List Notify :=
  match mapFind sid st.users with
  | none => (st, [.toSocket sid (.feedback "Please set your username first.")])
  | some userData =>
    match userData.username with
    | none => (st, [.toSocket sid (.feedback "Please set your username first.")])
    | some uname =>
      match mapFind roomId st.rooms with
      | none => (st, [.toSocket sid (.feedback "Room does not exist.")])
      | some room =>
        if truthy room.pin && room.pin ≠ pin && roomId ≠ GENERAL_ROOM_ID then
          (st, [.toSocket sid (.feedback "Incorrect PIN for this room.")])
        else if userData.currentRoomId = some roomId then
          (st, [.toSocket sid (.feedback ("You are already in \x27" ++ room.name ++ "\x27."))])
        else
          let prev := leaveRoom st sid (userData.currentRoomId.getD "") false now
          let st1 := if userData.currentRoomId.isSome then prev.1 else st
          let ns1 := if userData.currentRoomId.isSome then prev.2 else []
          let userData1 := { userData with currentRoomId := some roomId }
          let members := setAdd uname room.usersInRoom
          let joinMessage : Event :=
            { kind := some "system", user := none
              text := "<strong>" ++ uname ++ "</strong> has joined the room."
              timestamp := now, room := some roomId }
          let room1 := { room with usersInRoom := members, history := room.history ++ [joinMessage] }
          let st2 :=
            { st1 with
              users := mapSet sid userData1 st1.users
              rooms := mapSet roomId room1 st1.rooms
              userSocketRooms := modifySocketRooms sid (setAdd roomId) st1.userSocketRooms }
          (st2, ns1 ++
            [.toSocket sid (.roomJoinedSuccess room1.name roomId room1.history members),
             .toRoomExcept roomId sid (.chatMessage joinMessage),
             userListNotify st2 roomId])

/-- Handler for `set initial username`. -/
def setInitialUsername (st : State) (sid : String) (newUsername : String)
    (now : Nat) : State × List Notify :=
  let trimmedUsername := jsTrim newUsername
  if trimmedUsername = "" then
    (st, [.toSocket sid (.feedback "Username cannot be empty.")])
  else if st.users.any (fun p => p.2.username = some trimmedUsername && p.2.currentRoomId ≠ none) then
    (st, [.toSocket sid (.feedback ("Username \x27" ++ trimmedUsername ++ "\x27 is already taken. Please choose another."))])
  else
    match mapFind sid st.users with
    | none => (st, [])
    | some user =>
      let st1 := { st with users := mapSet sid { user with username := some trimmedUsername } st.users }
      let joined := joinRoom st1 sid GENERAL_ROOM_ID none now
      (joined.1, .toSocket sid (.usernameAccepted trimmedUsername) :: joined.2)

/-- Handler for `change username` (the `/nick` command). -/
def changeUsername (st : State) (sid : String) (newUsername : String)
    (now : Nat) : State × List Notify :=
  let trimmedNewUsername := jsTrim newUsername
  let oldUserData := mapFind sid st.users
  let oldUsername := match oldUserData with | some u => u.username | none => none
  if trimmedNewUsername = "" then
    (st, [.toSocket sid (.feedback "New username cannot be empty.")])
  else if some trimmedNewUsername = oldUsername then
    (st, [.toSocket sid (.feedback "That is already your username.")])
  else if st.users.any (fun p =>
      p.2.username = some trimmedNewUsername && p.2.currentRoomId ≠ none
        && p.2.username ≠ oldUsername) then
    (st, [.toSocket sid (.feedback ("Username \x27" ++ trimmedNewUsername ++ "\x27 is already taken. Please choose another."))])
  else
    match oldUserData with
    | none => (st, [])
    | some user =>
      let st1 := { st with users := mapSet sid { user with username := some trimmedNewUsername } st.users }
      let base := [Notify.toSocket sid (.usernameUpdated trimmedNewUsername)]
      match user.currentRoomId with
      | none => (st1, base)
      | some roomId =>
        match mapFind roomId st1.rooms with
        | none => (st1, base)
        | some room =>
          let oldName := match oldUsername with | some o => o | none => "A user"
          let members :=
            setAdd trimmedNewUsername
              (match oldUsername with
               | some o => setDel o room.usersInRoom
               | none => room.usersInRoom)
          let text := "<strong>" ++ oldName ++ "</strong> is now <strong>" ++ trimmedNewUsername ++ "</strong>."
          let histEvent : Event :=
            { kind := some "system", user := none, text := text, timestamp := now, room := none }
          let room1 := { room with usersInRoom := members, history := room.history ++ [histEvent] }
          let st2 := { st1 with rooms := mapSet roomId room1 st1.rooms }
          let bcast : Event :=
            { kind := some "system", user := some "System", text := text, timestamp := now, room := some roomId }
          (st2, base ++ [userListNotify st2 roomId, .toRoom roomId (.chatMessage bcast)])

/-- The id generated for a new room: `room-` followed by `Date.now()`. -/
def genRoomId (now : Nat) : String := "room-" ++ toString now

/-- Handler for `create room`.  Note: the auto-join at the end passes no PIN
to `joinRoom`, and there is no username check before the room is
registered. -/
def createRoom (st : State) (sid : String) (name : String) (pin : String)
    (now : Nat) : State × List Notify :=
  let trimmedName := jsTrim name
  let trimmedPin := jsTrim pin
  if trimmedName = "" || trimmedPin = "" then
    (st, [.toSocket sid (.feedback "Room name and PIN cannot be empty.")])
  else
    let roomId := genRoomId now
    if (mapFind roomId st.rooms).isSome then
      (st, [.toSocket sid (.feedback "Failed to create room: Room ID already exists.")])
    else
      let newRoom : Room := { name := trimmedName, pin := some trimmedPin, history := [], usersInRoom := [] }
      let st1 := { st with rooms := mapSet roomId newRoom st.rooms }
      let joined := joinRoom st1 sid roomId none now
      (joined.1,
        [.toSocket sid (.feedback ("Room \x27" ++ trimmedName ++ "\x27 created successfully! PIN: " ++ trimmedPin)),
         roomListNotify st1] ++ joined.2)

/-- Handler for `join room by pin`.  Finds the first room whose PIN matches,
then calls `joinRoom` without forwarding the PIN. -/
def joinRoomByPin (st : State) (sid : String) (pin : String)
    (now : Nat) : State × List Notify :=
  let trimmedPin := jsTrim pin
  if trimmedPin = "" then
    (st, [.toSocket sid (.feedback "PIN cannot be empty.")])
  else
    match st.rooms.find? (fun p => p.2.pin = some trimmedPin) with
    | some found => joinRoom st sid found.1 none now
    | none => (st, [.toSocket sid (.feedback "No room found with that PIN.")])

/-- Handler for `switch room`: a bare `joinRoom` with no PIN argument. -/
def switchRoom (st : State) (sid : String) (newRoomId : String)
    (now : Nat) : State × List Notify :=
  joinRoom st sid newRoomId none now

/-- Handler for `leave current room`.  Leaving the general room is refused;
leaving any other room puts the user back into the general room. -/
def leaveCurrentRoom (st : State) (sid : String) (now : Nat) : State × List Notify :=
  match mapFind sid st.users with
  | some userData =>
    match userData.currentRoomId with
    | some roomId =>
      if roomId ≠ GENERAL_ROOM_ID then
        let left := leaveRoom st sid roomId false now
        let joined := joinRoom left.1 sid GENERAL_ROOM_ID none now
        (joined.1, left.2 ++ joined.2)
      else
        (st, [.toSocket sid (.feedback "You cannot leave the General room. You can only switch to another room.")])
    | none => (st, [.toSocket sid (.feedback "You are not currently in a room to leave.")])
  | none => (st, [.toSocket sid (.feedback "You are not currently in a room to leave.")])

/-- Handler for `chat message`.  Drops the message silently unless the
sender is named and in an existing room; `msg.room` is ignored. -/
def chatMessage (st : State) (sid : String) (text : String) (timestamp : Nat) :
    State × List Notify :=
  match mapFind sid st.users with
  | none => (st, [])
  | some userData =>
    match userData.currentRoomId, userData.username with
    | some currentRoomId, some uname =>
      match mapFind currentRoomId st.rooms with
      | none => (st, [])
      | some room =>
        let messageData : Event :=
          { kind := some "message", user := some uname, text := text
            timestamp := timestamp, room := some currentRoomId }
        let room1 := { room with history := room.history ++ [messageData] }
        ({ st with rooms := mapSet currentRoomId room1 st.rooms },
         [.toRoom currentRoomId (.chatMessage messageData)])
    | _, _ => (st, [])

/-- Handler for `chat action` (the `/me` command). -/
def chatAction (st : State) (sid : String) (text : String) (timestamp : Nat) :
    State × List Notify :=
  match mapFind sid st.users with
  | none => (st, [])
  | some userData =>
    match userData.currentRoomId, userData.username with
    | some currentRoomId, some uname =>
      match mapFind currentRoomId st.rooms with
      | none => (st, [])
      | some room =>
        let actionData : Event :=
          { kind := some "action", user := some uname, text := text
            timestamp := timestamp, room := some currentRoomId }
        let room1 := { room with history := room.history ++ [actionData] }
        ({ st with rooms := mapSet currentRoomId room1 st.rooms },
         [.toRoom currentRoomId (.chatAction actionData)])
    | _, _ => (st, [])

/-- Handler for `typing`: ephemeral, no state change, sender excluded. -/
def typingEvent (st : State) (sid : String) (roomId : String) : State × List Notify :=
  match mapFind sid st.users with
  | some userData =>
    match userData.username with
    | some uname =>
      if userData.currentRoomId = some roomId then
        (st, [.toRoomExcept roomId sid (.userTyping uname roomId)])
      else (st, [])
    | none => (st, [])
  | none => (st, [])

/-- Handler for `stop typing`. -/
def stopTypingEvent (st : State) (sid : String) (roomId : String) : State × List Notify :=
  match mapFind sid st.users with
  | some userData =>
    match userData.username with
    | some uname =>
      if userData.currentRoomId = some roomId then
        (st, [.toRoomExcept roomId sid (.userStopTyping uname roomId)])
      else (st, [])
    | none => (st, [])
  | none => (st, [])

/-- A new connection: register the socket and broadcast the room list. -/
def onConnect (st : State) (sid : String) : State × List Notify :=
  let st1 :=
    { st with
      users := mapSet sid { username := none, currentRoomId := none } st.users
      userSocketRooms := mapSet sid [] st.userSocketRooms }
  (st1, [roomListNotify st1])

/-- Handler for `disconnect`: leave the current room (as a disconnect) and
then delete the user's entries. -/
def onDisconnect (st : State) (sid : String) (now : Nat) : State × List Notify :=
  let left :=
    match mapFind sid st.users with
    | some userData =>
      match userData.currentRoomId with
      | some roomId => leaveRoom st sid roomId true now
      | none => (st, [])
    | none => (st, [])
  ({ left.1 with
      users := mapErase sid left.1.users
      userSocketRooms := mapErase sid left.1.userSocketRooms },
   left.2)

/-- One inbound transport event on a given socket. -/
inductive ClientEvent where
  | connect
  | setInitialUsername (name : String)
  | changeUsername (name : String)
  | createRoom (name : String) (pin : String)
  | joinRoomByPin (pin : String)
  | switchRoom (roomId : String)
  | leaveCurrentRoom
  | chatMessage (text : String) (timestamp : Nat)
  | chatAction (text : String) (timestamp : Nat)
  | typing (roomId : String)
  | stopTyping (roomId : String)
  | disconnect
deriving Repr, DecidableEq

/-- Dispatch one event against the `server.js` handlers. -/
def step (st : State) (sid : String) (e : ClientEvent) (now : Nat) : State × List Notify :=
  match e with
  | .connect => onConnect st sid
  | .setInitialUsername name => setInitialUsername st sid name now
  | .changeUsername name => changeUsername st sid name now
  | .createRoom name pin => createRoom st sid name pin now
  | .joinRoomByPin pin => joinRoomByPin st sid pin now
  | .switchRoom roomId => switchRoom st sid roomId now
  | .leaveCurrentRoom => leaveCurrentRoom st sid now
  | .chatMessage text ts => chatMessage st sid text ts
  | .chatAction text ts => chatAction st sid text ts
  | .typing roomId => typingEvent st sid roomId
  | .stopTyping roomId => stopTypingEvent st sid roomId
  | .disconnect => onDisconnect st sid now

end SJ

/-! ## Model of `src/unnamed/part_000` -/

namespace P0

/-- State carried on each socket object: `socket.username` and
`socket.currentRoomId`. -/
structure Sock where
  username : Option String
  currentRoomId : Option String
deriving Repr, DecidableEq

/-- A room: `{ id, name, pin, history, users: Set<socket.id> }`.  Members are
socket ids here, not display names. -/
structure Room where
  id : String
  name : String
  pin : Option String
  history : List Event
  users : List String
deriving Repr, DecidableEq

/-- The whole mutable state: the global `users` array of
`{ id, username }` records, the per-socket fields, and the room map. -/
structure State where
  users : List (String × String)
  sockets : List (String × Sock)
  rooms : List (String × Room)
deriving Repr, DecidableEq

/-- Initial state: only the default `general` room. -/
def initState : State :=
  { users := []
    sockets := []
    rooms := [("general", { id := "general", name := "General", pin := none, history := [], users := [] })] }

/-- `getRoomList()`: `{ id, name, hasPin: !!room.pin }`. -/
def getRoomList (st : State) : List RoomSummary :=
  st.rooms.map (fun p => { id := p.2.id, name := p.2.name, hasPin := truthy p.2.pin })

/-- `io.sockets.sockets.get(id).username`, as used when rendering a room's
user list ("undefined" stands for a missing socket or username). -/
def userNameOf (st : State) (sid : String) : String :=
  match mapFind sid st.sockets with
  | some sock => match sock.username with | some n => n | none => "undefined"
  | none => "undefined"

/-- A room's user list as emitted: member socket ids mapped to usernames. -/
def roomUserNames (st : State) (room : Room) : List String :=
  room.users.map (userNameOf st)

/-- The username string interpolated into system messages
(`undefined` for an unnamed socket, as in JavaScript). -/
def sockName (sock : Sock) : String :=
  match sock.username with | some n => n | none => "undefined"

/-- Register a fresh socket; the client is sent the current room list. -/
def onConnect (st : State) (sid : String) : State × List Notify :=
  let st1 := { st with sockets := mapSet sid { username := none, currentRoomId := none } st.sockets }
  (st1, [.toSocket sid (.updateRoomList (getRoomList st1))])

/-- Handler for `set initial username`: accepted only if the trimmed name is
non-empty and no entry of the global `users` array holds it (whether or not
that user is in a room). -/
def setInitialUsername (st : State) (sid : String) (newUsername : String) :
    State × List Notify :=
  let trimmedUsername := jsTrim newUsername
  if trimmedUsername ≠ "" && !(st.users.any (fun u => u.2 = trimmedUsername)) then
    match mapFind sid st.sockets with
    | some sock =>
      let st1 :=
        { st with
          sockets := mapSet sid { sock with username := some trimmedUsername } st.sockets
          users := st.users ++ [(sid, trimmedUsername)] }
      (st1, [.toSocket sid (.usernameAccepted trimmedUsername),
             .toAll (.updateRoomList (getRoomList st1))])
    | none => (st, [])
  else
    (st, [.toSocket sid (.usernameRejected "Username is empty or already taken.")])

/-- The "leave current room" block repeated inside the create/join/switch
handlers: remove the socket from its old room (never deleting the room) and
notify that room. -/
def leaveOldRoom (st : State) (sid : String) (sock : Sock) (now : Nat) :
    State × List Notify :=
  match sock.currentRoomId with
  | some cur =>
    match mapFind cur st.rooms with
    | some oldRoom =>
      let oldRoom1 := { oldRoom with users := setDel sid oldRoom.users }
      let st1 := { st with rooms := mapSet cur oldRoom1 st.rooms }
      (st1,
       [.toRoom cur (.chatMessage
          { kind := none, user := some "System"
            text := sockName sock ++ " has left the room.", timestamp := now, room := some cur }),
        .toRoom cur (.userList (roomUserNames st1 oldRoom1))])
    | none => (st, [])
  | none => (st, [])

/-- Handler for `create room`: the trimmed PIN doubles as the room id. -/
def createRoom (st : State) (sid : String) (name : String) (pin : Option String)
    (now : Nat) : State × List Notify :=
  match mapFind sid st.sockets with
  | none => (st, [])
  | some sock =>
    if sock.username = none then
      (st, [.toSocket sid (.feedback "Please set your username first.")])
    else
      let trimmedName := jsTrim name
      let trimmedPin := match pin with
        | some p => if p = "" then none else some (jsTrim p)
        | none => none
      match trimmedPin with
      | none => (st, [.toSocket sid (.feedback "Room name and PIN cannot be empty.")])
      | some tp =>
        if trimmedName = "" || tp = "" then
          (st, [.toSocket sid (.feedback "Room name and PIN cannot be empty.")])
        else if (mapFind tp st.rooms).isSome then
          (st, [.toSocket sid (.feedback ("Room with PIN \"" ++ tp ++ "\" already exists."))])
        else
          let left := leaveOldRoom st sid sock now
          let newRoom : Room :=
            { id := tp, name := trimmedName, pin := some tp
              history := [{ kind := some "system", user := none
                            text := sockName sock ++ " created and joined the room."
                            timestamp := now, room := none }]
              users := [sid] }
          let st1 :=
            { left.1 with
              rooms := mapSet tp newRoom left.1.rooms
              sockets := mapSet sid { sock with currentRoomId := some tp } left.1.sockets }
          (st1, left.2 ++
            [.toSocket sid (.roomJoinedSuccess newRoom.name newRoom.id newRoom.history
               (roomUserNames st1 newRoom)),
             .toRoom tp (.userList (roomUserNames st1 newRoom)),
             .toAll (.updateRoomList (getRoomList st1))])

/-- Handler for `join room by pin`: rooms are keyed by their PIN here.  The
join event is recorded in the history but never broadcast to the room. -/
def joinRoomByPin (st : State) (sid : String) (pin : String) (now : Nat) :
    State × List Notify :=
  match mapFind sid st.sockets with
  | none => (st, [])
  | some sock =>
    if sock.username = none then
      (st, [.toSocket sid (.feedback "Please set your username first.")])
    else
      let trimmedPin := jsTrim pin
      if trimmedPin = "" then
        (st, [.toSocket sid (.feedback "Please enter a room PIN/ID.")])
      else
        match mapFind trimmedPin st.rooms with
        | none => (st, [.toSocket sid (.feedback "Room not found with that PIN.")])
        | some roomToJoin =>
          if sock.currentRoomId = some trimmedPin then
            (st, [.toSocket sid (.feedback "You are already in this room.")])
          else
            let left := leaveOldRoom st sid sock now
            let room0 := match mapFind trimmedPin left.1.rooms with
              | some r => r
              | none => roomToJoin
            let room1 :=
              { room0 with
                users := setAdd sid room0.users
                history := room0.history ++
                  [{ kind := some "system", user := none
                     text := sockName sock ++ " has joined the room."
                     timestamp := now, room := none }] }
            let st1 :=
              { left.1 with
                rooms := mapSet trimmedPin room1 left.1.rooms
                sockets := mapSet sid { sock with currentRoomId := some trimmedPin } left.1.sockets }
            (st1, left.2 ++
              [.toSocket sid (.roomJoinedSuccess room1.name room1.id room1.history
                 (roomUserNames st1 room1)),
               .toRoom trimmedPin (.userList (roomUserNames st1 room1))])

/-- Handler for `switch room`: joins any existing room id with no PIN
check at all. -/
def switchRoom (st : State) (sid : String) (newRoomId : String) (now : Nat) :
    State × List Notify :=
  match mapFind sid st.sockets with
  | none => (st, [])
  | some sock =>
    if sock.username = none then
      (st, [.toSocket sid (.feedback "Please set your username first.")])
    else
      match mapFind newRoomId st.rooms with
      | none => (st, [.toSocket sid (.feedback "Room not found.")])
      | some roomToSwitchTo =>
        if sock.currentRoomId = some newRoomId then
          (st, [.toSocket sid (.feedback "You are already in this room.")])
        else
          let left := leaveOldRoom st sid sock now
          let room0 := match mapFind newRoomId left.1.rooms with
            | some r => r
            | none => roomToSwitchTo
          let room1 :=
            { room0 with
              users := setAdd sid room0.users
              history := room0.history ++
                [{ kind := some "system", user := none
                   text := sockName sock ++ " has joined the room."
                   timestamp := now, room := none }] }
          let st1 :=
            { left.1 with
              rooms := mapSet newRoomId room1 left.1.rooms
              sockets := mapSet sid { sock with currentRoomId := some newRoomId } left.1.sockets }
          (st1, left.2 ++
            [.toSocket sid (.roomJoinedSuccess room1.name room1.id room1.history
               (roomUserNames st1 room1)),
             .toRoom newRoomId (.userList (roomUserNames st1 room1))])

/-- Handler for `leave current room`: removes the socket from the room and
returns it to the lobby.  The room is kept even if it is now empty. -/
def leaveCurrentRoom (st : State) (sid : String) (now : Nat) : State × List Notify :=
  match mapFind sid st.sockets with
  | none => (st, [.toSocket sid (.feedback "You are not currently in a room.")])
  | some sock =>
    match sock.currentRoomId with
    | none => (st, [.toSocket sid (.feedback "You are not currently in a room.")])
    | some cur =>
      match mapFind cur st.rooms with
      | none => (st, [.toSocket sid (.feedback "You are not currently in a room.")])
      | some roomToLeave =>
        let room1 := { roomToLeave with users := setDel sid roomToLeave.users }
        let st1 :=
          { st with
            rooms := mapSet cur room1 st.rooms
            sockets := mapSet sid { sock with currentRoomId := none } st.sockets }
        (st1,
         [.toRoom cur (.chatMessage
            { kind := none, user := some "System"
              text := sockName sock ++ " has left the room.", timestamp := now, room := some cur }),
          .toRoom cur (.userList (roomUserNames st1 room1)),
          .toSocket sid .enteredLobby])

/-- Handler for `chat message`: the event is appended to the history of the
socket's *current* room but broadcast to the room named in `data.room`. -/
def chatMessage (st : State) (sid : String) (dataRoom : String) (text : String)
    (timestamp : Nat) : State × List Notify :=
  match mapFind sid st.sockets with
  | none => (st, [])
  | some sock =>
    match sock.username, sock.currentRoomId with
    | some uname, some cur =>
      match mapFind cur st.rooms with
      | none => (st, [])
      | some room =>
        let messageData : Event :=
          { kind := some "message", user := some uname, text := text
            timestamp := timestamp, room := some dataRoom }
        let room1 := { room with history := room.history ++ [messageData] }
        ({ st with rooms := mapSet cur room1 st.rooms },
         [.toRoom dataRoom (.chatMessage messageData)])
    | _, _ => (st, [])

/-- Handler for `disconnect`: drop the user record, remove the socket from
its room, and delete the room if it is now empty and not `general`. -/
def onDisconnect (st : State) (sid : String) (now : Nat) : State × List Notify :=
  let users1 :=
    match st.users.findIdx? (fun u => u.1 = sid) with
    | some i => st.users.eraseIdx i
    | none => st.users
  let st0 := { st with users := users1 }
  match mapFind sid st0.sockets with
  | none => ({ st0 with sockets := mapErase sid st0.sockets }, [])
  | some sock =>
    match sock.currentRoomId with
    | none => ({ st0 with sockets := mapErase sid st0.sockets }, [])
    | some cur =>
      match mapFind cur st0.rooms with
      | none => ({ st0 with sockets := mapErase sid st0.sockets }, [])
      | some room =>
        let room1 := { room with users := setDel sid room.users }
        let st1 := { st0 with rooms := mapSet cur room1 st0.rooms }
        let ns1 :=
          [Notify.toRoom cur (.chatMessage
             { kind := none, user := some "System"
               text := sockName sock ++ " has disconnected.", timestamp := now, room := some cur }),
           Notify.toRoom cur (.userList (roomUserNames st1 room1))]
        let stDel :=
          if room1.users.isEmpty && room1.id ≠ "general" then
            { st1 with rooms := mapErase room1.id st1.rooms }
          else st1
        let ns2 :=
          if room1.users.isEmpty && room1.id ≠ "general" then
            [Notify.toAll (.updateRoomList (getRoomList stDel))]
          else []
        ({ stDel with sockets := mapErase sid stDel.sockets }, ns1 ++ ns2)

/-- One inbound transport event for the `part_000` server. -/
inductive ClientEvent where
  | connect
  | setInitialUsername (name : String)
  | createRoom (name : String) (pin : Option String)
  | joinRoomByPin (pin : String)
  | switchRoom (roomId : String)
  | leaveCurrentRoom
  | chatMessage (room : String) (text : String) (timestamp : Nat)
  | disconnect
deriving Repr, DecidableEq

/-- Dispatch one event against the `part_000` handlers. -/
def step (st : State) (sid : String) (e : ClientEvent) (now : Nat) : State × List Notify :=
  match e with
  | .connect => onConnect st sid
  | .setInitialUsername name => setInitialUsername st sid name
  | .createRoom name pin => createRoom st sid name pin now
  | .joinRoomByPin pin => joinRoomByPin st sid pin now
  | .switchRoom roomId => switchRoom st sid roomId now
  | .leaveCurrentRoom => leaveCurrentRoom st sid now
  | .chatMessage room text ts => chatMessage st sid room text ts
  | .disconnect => onDisconnect st sid now

end P0

/-! ## The membership invariant of `server.js` and its preservation -/

namespace SJ

/-- Claim C1's invariant: every room's member set is exactly the set of
display names of the sessions whose `currentRoomId` is that room. -/
def Inv (st : State) : Prop :=
  ∀ rid room, mapFind rid st.rooms = some room →
    ∀ n, n ∈ room.usersInRoom ↔
      ∃ sid u, mapFind sid st.users = some u ∧
        u.currentRoomId = some rid ∧ u.username = some n

/-- The strengthened inductive invariant. -/
structure GoodCore (st : State) : Prop where
  nodupR : (st.rooms.map Prod.fst).Nodup
  mem : Inv st
  named : ∀ sid u, mapFind sid st.users = some u → u.currentRoomId ≠ none → u.username ≠ none
  uniq : ∀ s1 u1 s2 u2 n, mapFind s1 st.users = some u1 → mapFind s2 st.users = some u2 →
    u1.username = some n → u2.username = some n →
    u1.currentRoomId ≠ none → u2.currentRoomId ≠ none → s1 = s2
  general : ∃ room, mapFind GENERAL_ROOM_ID st.rooms = some room ∧ room.pin = none
  closed : ∀ sid u rid, mapFind sid st.users = some u → u.currentRoomId = some rid →
    ∃ room, mapFind rid st.rooms = some room

/-- `GoodCore` together with "every named session is in a room". -/
def Good (st : State) : Prop :=
  GoodCore st ∧
    ∀ sid u, mapFind sid st.users = some u → u.username ≠ none → u.currentRoomId ≠ none

/-- States reachable by the `server.js` handlers under orderly transport
usage: connections carry fresh socket ids, `set initial username` is only
delivered for sessions that have no name yet, and `change username` only
for sessions that already have one. -/
inductive Reach : State → Prop where
  | init : Reach initState
  | connect (st : State) (sid : String) : Reach st → mapFind sid st.users = none →
      Reach (onConnect st sid).1
  | claimName (st : State) (sid name : String) (now : Nat) : Reach st →
      (∀ u, mapFind sid st.users = some u → u.username = none) →
      Reach (setInitialUsername st sid name now).1
  | rename (st : State) (sid name : String) (now : Nat) : Reach st →
      (∀ u, mapFind sid st.users = some u → u.username ≠ none) →
      Reach (changeUsername st sid name now).1
  | create (st : State) (sid name pin : String) (now : Nat) : Reach st →
      Reach (createRoom st sid name pin now).1
  | joinByPin (st : State) (sid pin : String) (now : Nat) : Reach st →
      Reach (joinRoomByPin st sid pin now).1
  | switch (st : State) (sid roomId : String) (now : Nat) : Reach st →
      Reach (switchRoom st sid roomId now).1
  | leaveCur (st : State) (sid : String) (now : Nat) : Reach st →
      Reach (leaveCurrentRoom st sid now).1
  | chatMsg (st : State) (sid text : String) (ts : Nat) : Reach st →
      Reach (chatMessage st sid text ts).1
  | chatAct (st : State) (sid text : String) (ts : Nat) : Reach st →
      Reach (chatAction st sid text ts).1
  | typing (st : State) (sid roomId : String) : Reach st →
      Reach (typingEvent st sid roomId).1
  | stopTyping (st : State) (sid roomId : String) : Reach st →
      Reach (stopTypingEvent st sid roomId).1
  | disconnect (st : State) (sid : String) (now : Nat) : Reach st →
      Reach (onDisconnect st sid now).1

theorem mem_of_nodup_find {l : List (String × α)} {k : String} {v : α}
    (hnodup : (l.map Prod.fst).Nodup) (hmem : (k, v) ∈ l) : mapFind k l = some v := by
  induction l with
  | nil => simp at hmem
  | cons p t ih =>
    rw [List.map_cons] at hnodup
    have hnd := List.nodup_cons.mp hnodup
    rcases List.mem_cons.mp hmem with heq | hmem'
    · rw [← heq]
      exact mapFind_cons_of_eq rfl t
    · by_cases hp : p.1 = k
      · exfalso
        have hk : k ∈ t.map Prod.fst := List.mem_map.mpr ⟨(k, v), hmem', rfl⟩
        exact hnd.1 (hp ▸ hk)
      · rw [mapFind_cons_of_ne hp]
        exact ih hnd.2 hmem'

theorem typingEvent_state (st : State) (sid roomId : String) :
    (typingEvent st sid roomId).1 = st := by
  rcases hu : mapFind sid st.users with _ | u
  · simp only [typingEvent, hu]
  · rcases hn : u.username with _ | n
    · simp only [typingEvent, hu, hn]
    · by_cases hc : u.currentRoomId = some roomId
      · simp only [typingEvent, hu, hn, if_pos hc]
      · simp only [typingEvent, hu, hn, if_neg hc]

theorem stopTypingEvent_state (st : State) (sid roomId : String) :
    (stopTypingEvent st sid roomId).1 = st := by
  rcases hu : mapFind sid st.users with _ | u
  · simp only [stopTypingEvent, hu]
  · rcases hn : u.username with _ | n
    · simp only [stopTypingEvent, hu, hn]
    · by_cases hc : u.currentRoomId = some roomId
      · simp only [stopTypingEvent, hu, hn, if_pos hc]
      · simp only [stopTypingEvent, hu, hn, if_neg hc]

/-- Pushing a history entry onto one room changes no member set, no pin and
no user, so it preserves `Good`. -/
theorem good_histPush {st : State} (g : Good st) {rid : String} {room room1 : Room}
    (hr : mapFind rid st.rooms = some room)
    (hm : room1.usersInRoom = room.usersInRoom) (hp : room1.pin = room.pin) :
    Good { st with rooms := mapSet rid room1 st.rooms } := by
  obtain ⟨gc, g5⟩ := g
  refine ⟨⟨?_, ?_, gc.named, gc.uniq, ?_, ?_⟩, g5⟩
  · exact nodupKeys_set gc.nodupR
  · intro r rm hfind n
    rw [mapFind_set] at hfind
    by_cases hr2 : r = rid
    · rw [if_pos hr2] at hfind
      rw [hr2]
      rw [← Option.some.inj hfind, hm]
      exact hr2 ▸ gc.mem rid room hr n
    · rw [if_neg hr2] at hfind
      exact gc.mem r rm hfind n
  · obtain ⟨groom, hg, hgpin⟩ := gc.general
    by_cases hr2 : GENERAL_ROOM_ID = rid
    · refine ⟨room1, by rw [mapFind_set, if_pos hr2], ?_⟩
      have hgr : groom = room := by
        rw [hr2] at hg
        rw [hg] at hr
        exact Option.some.inj hr
      rw [hp, ← hgr]
      exact hgpin
    · exact ⟨groom, by rw [mapFind_set, if_neg hr2]; exact hg, hgpin⟩
  · intro s u r hfind hcur
    obtain ⟨rm, hrm⟩ := gc.closed s u r hfind hcur
    by_cases hr2 : r = rid
    · exact ⟨room1, by rw [mapFind_set, if_pos hr2]⟩
    · exact ⟨rm, by rw [mapFind_set, if_neg hr2]; exact hrm⟩

theorem good_chatMessage {st : State} (g : Good st) (sid text : String) (ts : Nat) :
    Good (chatMessage st sid text ts).1 := by
  rcases hu : mapFind sid st.users with _ | u
  · simpa only [chatMessage, hu] using g
  · rcases hc : u.currentRoomId with _ | cur <;> rcases hn : u.username with _ | n
    · simpa only [chatMessage, hu, hc, hn] using g
    · simpa only [chatMessage, hu, hc, hn] using g
    · simpa only [chatMessage, hu, hc, hn] using g
    · rcases hr : mapFind cur st.rooms with _ | room
      · simpa only [chatMessage, hu, hc, hn, hr] using g
      · simp only [chatMessage, hu, hc, hn, hr]
        exact good_histPush g hr rfl rfl

theorem good_chatAction {st : State} (g : Good st) (sid text : String) (ts : Nat) :
    Good (chatAction st sid text ts).1 := by
  rcases hu : mapFind sid st.users with _ | u
  · simpa only [chatAction, hu] using g
  · rcases hc : u.currentRoomId with _ | cur <;> rcases hn : u.username with _ | n
    · simpa only [chatAction, hu, hc, hn] using g
    · simpa only [chatAction, hu, hc, hn] using g
    · simpa only [chatAction, hu, hc, hn] using g
    · rcases hr : mapFind cur st.rooms with _ | room
      · simpa only [chatAction, hu, hc, hn, hr] using g
      · simp only [chatAction, hu, hc, hn, hr]
        exact good_histPush g hr rfl rfl

theorem good_onConnect {st : State} (g : Good st) {sid : String}
    (hfresh : mapFind sid st.users = none) : Good (onConnect st sid).1 := by
  obtain ⟨gc, g5⟩ := g
  unfold onConnect
  refine ⟨⟨gc.nodupR, ?_, ?_, ?_, gc.general, ?_⟩, ?_⟩
  · intro rid room hfind n
    rw [gc.mem rid room hfind n]
    constructor
    · rintro ⟨s, u, hf, hcur, hn⟩
      refine ⟨s, u, ?_, hcur, hn⟩
      have hs : s ≠ sid := by
        intro hh
        rw [hh, hfresh] at hf
        exact Option.noConfusion hf
      rw [mapFind_set, if_neg hs]
      exact hf
    · rintro ⟨s, u, hf, hcur, hn⟩
      rw [mapFind_set] at hf
      by_cases hs : s = sid
      · rw [if_pos hs] at hf
        rw [← Option.some.inj hf] at hcur
        exact absurd hcur (by simp)
      · rw [if_neg hs] at hf
        exact ⟨s, u, hf, hcur, hn⟩
  · intro s u hf hcur
    rw [mapFind_set] at hf
    by_cases hs : s = sid
    · rw [if_pos hs] at hf
      rw [← Option.some.inj hf] at hcur
      simp at hcur
    · rw [if_neg hs] at hf
      exact gc.named s u hf hcur
  · intro s1 u1 s2 u2 n h1 h2 hn1 hn2 hc1 hc2
    rw [mapFind_set] at h1 h2
    by_cases hs1 : s1 = sid
    · rw [if_pos hs1] at h1
      rw [← Option.some.inj h1] at hc1
      simp at hc1
    · rw [if_neg hs1] at h1
      by_cases hs2 : s2 = sid
      · rw [if_pos hs2] at h2
        rw [← Option.some.inj h2] at hc2
        simp at hc2
      · rw [if_neg hs2] at h2
        exact gc.uniq s1 u1 s2 u2 n h1 h2 hn1 hn2 hc1 hc2
  · intro s u rid hf hcur
    rw [mapFind_set] at hf
    by_cases hs : s = sid
    · rw [if_pos hs] at hf
      rw [← Option.some.inj hf] at hcur
      simp at hcur
    · rw [if_neg hs] at hf
      exact gc.closed s u rid hf hcur
  · intro s u hf hn
    rw [mapFind_set] at hf
    by_cases hs : s = sid
    · rw [if_pos hs] at hf
      rw [← Option.some.inj hf] at hn
      simp at hn
    · rw [if_neg hs] at hf
      exact g5 s u hf hn

end SJ

namespace SJ

/-- The system event `leaveRoom` records. -/
def leaveEvt (n rid : String) (now : Nat) : Event :=
  { kind := some "system", user := none
    text := "<strong>" ++ n ++ "</strong> has left the room."
    timestamp := now, room := some rid }

/-- The room value `leaveRoom` writes back before the emptiness check. -/
def leftRoom (room : Room) (n rid : String) (now : Nat) : Room :=
  { room with usersInRoom := setDel n room.usersInRoom
              history := room.history ++ [leaveEvt n rid now] }

theorem leaveRoom_users {st : State} {sid rid : String} {u : UserData} {room : Room} {n : String}
    (hu : mapFind sid st.users = some u) (hr : mapFind rid st.rooms = some room)
    (hn : u.username = some n) (now : Nat) :
    (leaveRoom st sid rid false now).1.users =
      mapSet sid { u with currentRoomId := none } st.users := by
  simp only [leaveRoom, hu, hr, hn]
  split
  · rename_i h
    exact absurd h (by simp)
  · split <;> rfl

theorem leaveRoom_users_disconnect {st : State} {sid rid : String} {u : UserData} {room : Room}
    {n : String} (hu : mapFind sid st.users = some u) (hr : mapFind rid st.rooms = some room)
    (hn : u.username = some n) (now : Nat) :
    (leaveRoom st sid rid true now).1.users = st.users := by
  simp only [leaveRoom, hu, hr, hn]
  split
  · split <;> rfl
  · rename_i h
    exact absurd (by simp) h

theorem leaveRoom_rooms {st : State} {sid rid : String} {u : UserData} {room : Room} {n : String}
    (hu : mapFind sid st.users = some u) (hr : mapFind rid st.rooms = some room)
    (hn : u.username = some n) (d : Bool) (now : Nat) :
    (leaveRoom st sid rid d now).1.rooms =
      if (setDel n room.usersInRoom).isEmpty && rid ≠ GENERAL_ROOM_ID then
        mapErase rid (mapSet rid (leftRoom room n rid now) st.rooms)
      else mapSet rid (leftRoom room n rid now) st.rooms := by
  simp only [leaveRoom, hu, hr, hn, leftRoom, leaveEvt]
  cases d
  · split
    · rename_i h
      exact absurd h (by simp)
    · split <;> rfl
  · split
    · split <;> rfl
    · rename_i h
      exact absurd (by simp) h

end SJ

namespace SJ

theorem goodcore_leave {st : State} {sid rid : String} {u : UserData} {room : Room} {n : String}
    (g : GoodCore st)
    (hu : mapFind sid st.users = some u) (hr : mapFind rid st.rooms = some room)
    (hn : u.username = some n) (hcur : u.currentRoomId = some rid) (now : Nat) :
    GoodCore (leaveRoom st sid rid false now).1 ∧
    mapFind sid (leaveRoom st sid rid false now).1.users = some { u with currentRoomId := none } ∧
    (∀ s, s ≠ sid → mapFind s (leaveRoom st sid rid false now).1.users = mapFind s st.users) ∧
    (∀ r, r ≠ rid → mapFind r (leaveRoom st sid rid false now).1.rooms = mapFind r st.rooms) ∧
    (∀ s w, mapFind s (leaveRoom st sid rid false now).1.users = some w →
      w.currentRoomId ≠ none → w.username ≠ some n) := by
  have husers := leaveRoom_users hu hr hn now
  have hrooms := leaveRoom_rooms hu hr hn false now
  have hfu : ∀ s, mapFind s (leaveRoom st sid rid false now).1.users =
      if s = sid then some { u with currentRoomId := none } else mapFind s st.users := by
    intro s
    rw [husers, mapFind_set]
  have hroomfind : ∀ r, r ≠ rid → mapFind r (leaveRoom st sid rid false now).1.rooms = mapFind r st.rooms := by
    intro r hne
    rw [hrooms]
    split
    · rw [mapFind_erase, if_neg hne, mapFind_set, if_neg hne]
    · rw [mapFind_set, if_neg hne]
  have hridcase :
      (mapFind rid (leaveRoom st sid rid false now).1.rooms = none ∧
        (∀ y ∈ room.usersInRoom, y = n) ∧ rid ≠ GENERAL_ROOM_ID) ∨
      mapFind rid (leaveRoom st sid rid false now).1.rooms = some (leftRoom room n rid now) := by
    rw [hrooms]
    split
    · rename_i hcond
      simp only [Bool.and_eq_true, List.isEmpty_iff, decide_eq_true_eq] at hcond
      exact .inl ⟨by rw [mapFind_erase, if_pos rfl], setDel_eq_nil_iff.mp hcond.1, hcond.2⟩
    · exact .inr (by rw [mapFind_set, if_pos rfl])
  -- no session in a room carries the leaver's name afterwards
  have hnone : ∀ s w, mapFind s (leaveRoom st sid rid false now).1.users = some w →
      w.currentRoomId ≠ none → w.username ≠ some n := by
    intro s w hfw hwr hwn
    rw [hfu] at hfw
    by_cases hs : s = sid
    · rw [if_pos hs] at hfw
      rw [← Option.some.inj hfw] at hwr
      exact hwr rfl
    · rw [if_neg hs] at hfw
      exact hs (g.uniq s w sid u n hfw hu hwn hn hwr (by rw [hcur]; exact fun hh => Option.noConfusion hh))
  refine ⟨⟨?_, ?_, ?_, ?_, ?_, ?_⟩, by rw [hfu, if_pos rfl], fun s hs => by rw [hfu, if_neg hs],
    hroomfind, hnone⟩
  · rw [hrooms]
    split
    · exact nodupKeys_erase (nodupKeys_set g.nodupR)
    · exact nodupKeys_set g.nodupR
  · intro r rm hfind m
    by_cases hcr : r = rid
    · subst hcr
      rcases hridcase with ⟨hdel, hall, hgen⟩ | hkeep
      · rw [hfind] at hdel
        exact Option.noConfusion hdel
      · rw [hfind] at hkeep
        rw [Option.some.inj hkeep, leftRoom]
        constructor
        · intro hm
          have hm2 := mem_setDel.mp hm
          obtain ⟨s, w, hfw, hwr, hwn⟩ := (g.mem r room hr m).mp hm2.1
          have hs : s ≠ sid := by
            intro hh
            rw [hh, hu] at hfw
            rw [← Option.some.inj hfw, hn] at hwn
            exact hm2.2 (Option.some.inj hwn).symm
          exact ⟨s, w, by rw [hfu, if_neg hs]; exact hfw, hwr, hwn⟩
        · rintro ⟨s, w, hfw, hwr, hwn⟩
          rw [hfu] at hfw
          by_cases hs : s = sid
          · rw [if_pos hs] at hfw
            rw [← Option.some.inj hfw] at hwr
            exact Option.noConfusion hwr
          · rw [if_neg hs] at hfw
            refine mem_setDel.mpr ⟨(g.mem r room hr m).mpr ⟨s, w, hfw, hwr, hwn⟩, ?_⟩
            intro hmn
            rw [hmn] at hwn
            exact hs (g.uniq s w sid u n hfw hu hwn hn
              (by rw [hwr]; exact fun hh => Option.noConfusion hh)
              (by rw [hcur]; exact fun hh => Option.noConfusion hh))
    · have hfind2 : mapFind r st.rooms = some rm := by
        rw [← hroomfind r hcr]
        exact hfind
      rw [g.mem r rm hfind2 m]
      constructor
      · rintro ⟨s, w, hfw, hwr, hwn⟩
        have hs : s ≠ sid := by
          intro hh
          rw [hh, hu] at hfw
          rw [← Option.some.inj hfw, hcur] at hwr
          exact hcr (Option.some.inj hwr).symm
        exact ⟨s, w, by rw [hfu, if_neg hs]; exact hfw, hwr, hwn⟩
      · rintro ⟨s, w, hfw, hwr, hwn⟩
        rw [hfu] at hfw
        by_cases hs : s = sid
        · rw [if_pos hs] at hfw
          rw [← Option.some.inj hfw] at hwr
          exact Option.noConfusion hwr
        · rw [if_neg hs] at hfw
          exact ⟨s, w, hfw, hwr, hwn⟩
  · intro s w hfw hwr
    rw [hfu] at hfw
    by_cases hs : s = sid
    · rw [if_pos hs] at hfw
      rw [← Option.some.inj hfw] at hwr
      exact absurd rfl hwr
    · rw [if_neg hs] at hfw
      exact g.named s w hfw hwr
  · intro s1 w1 s2 w2 m h1 h2 hn1 hn2 hc1 hc2
    rw [hfu] at h1 h2
    by_cases hs1 : s1 = sid
    · rw [if_pos hs1] at h1
      rw [← Option.some.inj h1] at hc1
      exact absurd rfl hc1
    · rw [if_neg hs1] at h1
      by_cases hs2 : s2 = sid
      · rw [if_pos hs2] at h2
        rw [← Option.some.inj h2] at hc2
        exact absurd rfl hc2
      · rw [if_neg hs2] at h2
        exact g.uniq s1 w1 s2 w2 m h1 h2 hn1 hn2 hc1 hc2
  · obtain ⟨groom, hg, hgp⟩ := g.general
    by_cases hgr : GENERAL_ROOM_ID = rid
    · rcases hridcase with ⟨_, _, hgen⟩ | hkeep
      · exact absurd hgr.symm hgen
      · refine ⟨leftRoom room n rid now, by rw [hgr]; exact hkeep, ?_⟩
        have hgroom : groom = room := by
          rw [hgr] at hg
          rw [hg] at hr
          exact Option.some.inj hr
        rw [leftRoom]
        show room.pin = none
        rw [← hgroom]
        exact hgp
    · exact ⟨groom, by rw [hroomfind GENERAL_ROOM_ID hgr]; exact hg, hgp⟩
  · intro s w r hfw hwr
    rw [hfu] at hfw
    by_cases hs : s = sid
    · rw [if_pos hs] at hfw
      rw [← Option.some.inj hfw] at hwr
      exact Option.noConfusion hwr
    · rw [if_neg hs] at hfw
      by_cases hcr : r = rid
      · subst hcr
        rcases hridcase with ⟨hdel, hall, hgen⟩ | hkeep
        · exfalso
          have hnamed := g.named s w hfw (by rw [hwr]; exact fun hh => Option.noConfusion hh)
          rcases hw : w.username with _ | m
          · exact hnamed hw
          · have hmem : m ∈ room.usersInRoom :=
              (g.mem r room hr m).mpr ⟨s, w, hfw, hwr, hw⟩
            have hmn := hall m hmem
            rw [hmn] at hw
            exact hs (g.uniq s w sid u n hfw hu hw hn
              (by rw [hwr]; exact fun hh => Option.noConfusion hh)
              (by rw [hcur]; exact fun hh => Option.noConfusion hh))
        · exact ⟨leftRoom room n r now, hkeep⟩
      · obtain ⟨rm, hrm⟩ := g.closed s w r hfw hwr
        exact ⟨rm, by rw [hroomfind r hcr]; exact hrm⟩

end SJ

namespace SJ

theorem goodcore_joinWrite {st1 : State} {sid rid n : String} {u1 : UserData} {room1 : Room}
    (g : GoodCore st1)
    (hu : mapFind sid st1.users = some u1) (hn : u1.username = some n)
    (hlobby : u1.currentRoomId = none)
    (hr : mapFind rid st1.rooms = some room1)
    (hfree : ∀ s w, mapFind s st1.users = some w → s ≠ sid →
      w.currentRoomId ≠ none → w.username ≠ some n)
    (rr : Room) (hrm : rr.usersInRoom = setAdd n room1.usersInRoom) (hrp : rr.pin = room1.pin)
    (sr : List (String × List String)) :
    GoodCore { users := mapSet sid { u1 with currentRoomId := some rid } st1.users,
               rooms := mapSet rid rr st1.rooms, userSocketRooms := sr } ∧
    (∀ s, s ≠ sid →
      mapFind s (mapSet sid { u1 with currentRoomId := some rid } st1.users) = mapFind s st1.users) ∧
    mapFind sid (mapSet sid { u1 with currentRoomId := some rid } st1.users) =
      some { u1 with currentRoomId := some rid } := by
  have hfu : ∀ s, mapFind s (mapSet sid { u1 with currentRoomId := some rid } st1.users) =
      if s = sid then some { u1 with currentRoomId := some rid } else mapFind s st1.users := by
    intro s
    rw [mapFind_set]
  refine ⟨⟨?_, ?_, ?_, ?_, ?_, ?_⟩, fun s hs => by rw [hfu, if_neg hs], by rw [hfu, if_pos rfl]⟩
  · exact nodupKeys_set g.nodupR
  · intro r rm hfind m
    simp only at hfind
    rw [mapFind_set] at hfind
    by_cases hcr : r = rid
    · rw [if_pos hcr] at hfind
      have hrmrr : rm = rr := (Option.some.inj hfind).symm
      rw [hrmrr, hrm, hcr]
      constructor
      · intro hm
        rcases mem_setAdd.mp hm with hmn | hmm
        · exact ⟨sid, { u1 with currentRoomId := some rid }, by rw [hfu, if_pos rfl],
            rfl, by show u1.username = some m; rw [hmn]; exact hn⟩
        · obtain ⟨s, w, hfw, hwr, hwn⟩ := (g.mem rid room1 hr m).mp hmm
          have hs : s ≠ sid := by
            intro hh
            rw [hh, hu] at hfw
            rw [← Option.some.inj hfw, hlobby] at hwr
            exact Option.noConfusion hwr
          exact ⟨s, w, by rw [hfu, if_neg hs]; exact hfw, hwr, hwn⟩
      · rintro ⟨s, w, hfw, hwr, hwn⟩
        rw [hfu] at hfw
        by_cases hs : s = sid
        · rw [if_pos hs] at hfw
          rw [← Option.some.inj hfw] at hwn
          have : m = n := by
            have := hn
            rw [show ({ u1 with currentRoomId := some rid } : UserData).username = u1.username from rfl] at hwn
            rw [this] at hwn
            exact (Option.some.inj hwn).symm
          exact mem_setAdd.mpr (.inl this)
        · rw [if_neg hs] at hfw
          exact mem_setAdd.mpr (.inr ((g.mem rid room1 hr m).mpr ⟨s, w, hfw, hwr, hwn⟩))
    · rw [if_neg hcr] at hfind
      rw [g.mem r rm hfind m]
      constructor
      · rintro ⟨s, w, hfw, hwr, hwn⟩
        have hs : s ≠ sid := by
          intro hh
          rw [hh, hu] at hfw
          rw [← Option.some.inj hfw, hlobby] at hwr
          exact Option.noConfusion hwr
        exact ⟨s, w, by rw [hfu, if_neg hs]; exact hfw, hwr, hwn⟩
      · rintro ⟨s, w, hfw, hwr, hwn⟩
        rw [hfu] at hfw
        by_cases hs : s = sid
        · rw [if_pos hs] at hfw
          rw [← Option.some.inj hfw] at hwr
          have : some rid = some r := hwr
          exact absurd (Option.some.inj this).symm hcr
        · rw [if_neg hs] at hfw
          exact ⟨s, w, hfw, hwr, hwn⟩
  · intro s w hfw hwr
    simp only at hfw
    rw [hfu] at hfw
    by_cases hs : s = sid
    · rw [if_pos hs] at hfw
      rw [← Option.some.inj hfw]
      show u1.username ≠ none
      rw [hn]
      exact fun hh => Option.noConfusion hh
    · rw [if_neg hs] at hfw
      exact g.named s w hfw hwr
  · intro s1 w1 s2 w2 m h1 h2 hn1 hn2 hc1 hc2
    simp only at h1 h2
    rw [hfu] at h1 h2
    by_cases hs1 : s1 = sid <;> by_cases hs2 : s2 = sid
    · rw [hs1, hs2]
    · rw [if_pos hs1] at h1
      rw [if_neg hs2] at h2
      exfalso
      have hm : m = n := by
        rw [← Option.some.inj h1] at hn1
        have : u1.username = some m := hn1
        rw [hn] at this
        exact (Option.some.inj this).symm
      rw [hm] at hn2
      exact hfree s2 w2 h2 hs2 hc2 hn2
    · rw [if_neg hs1] at h1
      rw [if_pos hs2] at h2
      exfalso
      have hm : m = n := by
        rw [← Option.some.inj h2] at hn2
        have : u1.username = some m := hn2
        rw [hn] at this
        exact (Option.some.inj this).symm
      rw [hm] at hn1
      exact hfree s1 w1 h1 hs1 hc1 hn1
    · rw [if_neg hs1] at h1
      rw [if_neg hs2] at h2
      exact g.uniq s1 w1 s2 w2 m h1 h2 hn1 hn2 hc1 hc2
  · obtain ⟨groom, hg, hgp⟩ := g.general
    by_cases hgr : GENERAL_ROOM_ID = rid
    · refine ⟨rr, by simp only; rw [mapFind_set, if_pos hgr], ?_⟩
      have hgroom : groom = room1 := by
        rw [hgr] at hg
        rw [hg] at hr
        exact Option.some.inj hr
      rw [hrp, ← hgroom]
      exact hgp
    · exact ⟨groom, by simp only; rw [mapFind_set, if_neg hgr]; exact hg, hgp⟩
  · intro s w r hfw hwr
    simp only at hfw ⊢
    rw [hfu] at hfw
    by_cases hs : s = sid
    · rw [if_pos hs] at hfw
      have hwu : w = { u1 with currentRoomId := some rid } := (Option.some.inj hfw).symm
      rw [hwu] at hwr
      have hrr : r = rid := (Option.some.inj hwr).symm
      exact ⟨rr, by rw [mapFind_set, if_pos hrr]⟩
    · rw [if_neg hs] at hfw
      obtain ⟨rm, hrm2⟩ := g.closed s w r hfw hwr
      by_cases hcr : r = rid
      · exact ⟨rr, by rw [mapFind_set, if_pos hcr]⟩
      · exact ⟨rm, by rw [mapFind_set, if_neg hcr]; exact hrm2⟩

end SJ

namespace SJ

/-- The system event `joinRoom` records. -/
def joinEvt (n rid : String) (now : Nat) : Event :=
  { kind := some "system", user := none
    text := "<strong>" ++ n ++ "</strong> has joined the room."
    timestamp := now, room := some rid }

/-- The room value `joinRoom` writes back. -/
def joinedRoom (room : Room) (n rid : String) (now : Nat) : Room :=
  { room with usersInRoom := setAdd n room.usersInRoom
              history := room.history ++ [joinEvt n rid now] }

theorem good_joinRoom {st : State} {sid rid : String} {pin : Option String} {now : Nat}
    (g : GoodCore st)
    (hothers : ∀ s w, mapFind s st.users = some w → s ≠ sid →
      w.username ≠ none → w.currentRoomId ≠ none)
    (hfree : ∀ m s w u0, mapFind sid st.users = some u0 → u0.username = some m →
      mapFind s st.users = some w → s ≠ sid → w.currentRoomId ≠ none → w.username ≠ some m) :
    GoodCore (joinRoom st sid rid pin now).1 ∧
    (∀ s w, mapFind s (joinRoom st sid rid pin now).1.users = some w → s ≠ sid →
      w.username ≠ none → w.currentRoomId ≠ none) ∧
    ((joinRoom st sid rid pin now).1 = st ∨
      ∃ u1, mapFind sid (joinRoom st sid rid pin now).1.users = some u1 ∧
        u1.currentRoomId = some rid ∧ u1.username ≠ none) ∧
    (∀ u0 room0, mapFind sid st.users = some u0 → u0.username ≠ none →
      mapFind rid st.rooms = some room0 →
      (truthy room0.pin && room0.pin ≠ pin && rid ≠ GENERAL_ROOM_ID) = false →
      u0.currentRoomId ≠ some rid →
      ∃ u1, mapFind sid (joinRoom st sid rid pin now).1.users = some u1 ∧
        u1.currentRoomId = some rid ∧ u1.username = u0.username) := by
  rcases hu : mapFind sid st.users with _ | u
  · have hres : (joinRoom st sid rid pin now).1 = st := by simp only [joinRoom, hu]
    rw [hres]
    refine ⟨g, hothers, .inl rfl, ?_⟩
    intro u0 room0 hu0 _ _ _ _
    exact Option.noConfusion hu0
  · rcases hname : u.username with _ | n
    · have hres : (joinRoom st sid rid pin now).1 = st := by simp only [joinRoom, hu, hname]
      rw [hres]
      refine ⟨g, hothers, .inl rfl, ?_⟩
      intro u0 room0 hu0 hn0 _ _ _
      have h1 : u = u0 := Option.some.inj hu0
      rw [← h1, hname] at hn0
      exact absurd rfl hn0
    · rcases hr : mapFind rid st.rooms with _ | room
      · have hres : (joinRoom st sid rid pin now).1 = st := by simp only [joinRoom, hu, hname, hr]
        rw [hres]
        refine ⟨g, hothers, .inl rfl, ?_⟩
        intro u0 room0 _ _ hr0 _ _
        exact Option.noConfusion hr0
      · by_cases hpin : (truthy room.pin && room.pin ≠ pin && rid ≠ GENERAL_ROOM_ID) = true
        · have hres : (joinRoom st sid rid pin now).1 = st := by
            simp only [joinRoom, hu, hname, hr]
            rw [if_pos hpin]
          rw [hres]
          refine ⟨g, hothers, .inl rfl, ?_⟩
          intro u0 room0 hu0 _ hr0 hcond _
          have h2 : room = room0 := Option.some.inj hr0
          rw [← h2, hpin] at hcond
          exact Bool.noConfusion hcond
        · by_cases hin : u.currentRoomId = some rid
          · have hres : (joinRoom st sid rid pin now).1 = st := by
              simp only [joinRoom, hu, hname, hr]
              rw [if_neg hpin, if_pos hin]
            rw [hres]
            refine ⟨g, hothers, .inl rfl, ?_⟩
            intro u0 room0 hu0 _ _ _ hnin
            have h1 : u = u0 := Option.some.inj hu0
            rw [← h1] at hnin
            exact absurd hin hnin
          · rcases hc : u.currentRoomId with _ | prev
            · -- joining from the lobby: no previous room to leave
              have hres : (joinRoom st sid rid pin now).1 =
                  { users := mapSet sid { u with currentRoomId := some rid } st.users
                    rooms := mapSet rid (joinedRoom room n rid now) st.rooms
                    userSocketRooms := modifySocketRooms sid (setAdd rid) st.userSocketRooms } := by
                simp only [joinRoom, joinedRoom, joinEvt, hu, hname, hr, hc, Option.isSome_none]
                rw [if_neg hpin, if_neg (fun h => Option.noConfusion h)]
                split
                · rename_i h
                  exact absurd h (by simp)
                · rfl
              obtain ⟨gw, wothers, wacting⟩ :=
                goodcore_joinWrite g hu hname hc hr
                  (fun s w hfw hs hwr hwn => hfree n s w u hu hname hfw hs hwr hwn)
                  (joinedRoom room n rid now)
                  rfl rfl (modifySocketRooms sid (setAdd rid) st.userSocketRooms)
              rw [hres]
              refine ⟨gw, ?_, ?_, ?_⟩
              · intro s w hfw hs
                have hfw2 : mapFind s (mapSet sid { u with currentRoomId := some rid } st.users) =
                    some w := hfw
                rw [wothers s hs] at hfw2
                exact hothers s w hfw2 hs
              · refine .inr ⟨{ u with currentRoomId := some rid }, wacting, rfl, ?_⟩
                show u.username ≠ none
                rw [hname]
                exact fun hh => Option.noConfusion hh
              · intro u0 room0 hu0 _ _ _ _
                have h1 : u = u0 := Option.some.inj hu0
                rw [← h1]
                exact ⟨{ u with currentRoomId := some rid }, wacting, rfl, rfl⟩
            · -- leaving the previous room first
              have hprevne : rid ≠ prev := by
                intro hh
                rw [hh] at hin
                exact hin hc
              obtain ⟨proom, hproom⟩ := g.closed sid u prev hu hc
              obtain ⟨gl, lacting, lothers, lrooms, lfree⟩ := goodcore_leave g hu hproom hname hc now
              have hr1 : mapFind rid (leaveRoom st sid prev false now).1.rooms = some room := by
                rw [lrooms rid hprevne]
                exact hr
              have hres : (joinRoom st sid rid pin now).1 =
                  { users := mapSet sid { u with currentRoomId := some rid }
                      (leaveRoom st sid prev false now).1.users
                    rooms := mapSet rid (joinedRoom room n rid now)
                      (leaveRoom st sid prev false now).1.rooms
                    userSocketRooms := modifySocketRooms sid (setAdd rid)
                      (leaveRoom st sid prev false now).1.userSocketRooms } := by
                simp only [joinRoom, joinedRoom, joinEvt, hu, hname, hr, hc,
                  Option.isSome_some, Option.getD_some]
                rw [if_neg hpin, if_neg (fun h => hin (hc.trans h))]
                split
                · rfl
                · rename_i h
                  exact absurd (by simp) h
              have lacting2 : mapFind sid (leaveRoom st sid prev false now).1.users =
                  some { username := u.username, currentRoomId := none } := lacting
              obtain ⟨gw, wothers, wacting⟩ :=
                goodcore_joinWrite gl lacting2 hname rfl hr1
                  (fun s w hfw _ hwr hwn => lfree s w hfw hwr hwn)
                  (joinedRoom room n rid now)
                  rfl rfl
                  (modifySocketRooms sid (setAdd rid) (leaveRoom st sid prev false now).1.userSocketRooms)
              rw [hres]
              refine ⟨gw, ?_, ?_, ?_⟩
              · intro s w hfw hs
                have hfw2 : mapFind s (mapSet sid
                    { username := u.username, currentRoomId := some rid }
                    (leaveRoom st sid prev false now).1.users) = some w := hfw
                rw [wothers s hs, lothers s hs] at hfw2
                exact hothers s w hfw2 hs
              · refine .inr ⟨_, wacting, rfl, ?_⟩
                show u.username ≠ none
                rw [hname]
                exact fun hh => Option.noConfusion hh
              · intro u0 room0 hu0 _ _ _ _
                have h1 : u = u0 := Option.some.inj hu0
                rw [← h1]
                exact ⟨_, wacting, rfl, rfl⟩

end SJ

namespace SJ

theorem good_of_joinRoom {st : State} (sid rid : String) (pin : Option String) (now : Nat)
    (g : Good st) : Good (joinRoom st sid rid pin now).1 := by
  obtain ⟨gc, g5⟩ := g
  have hothers : ∀ s w, mapFind s st.users = some w → s ≠ sid →
      w.username ≠ none → w.currentRoomId ≠ none := fun s w hf _ hn => g5 s w hf hn
  have hfree : ∀ m s w u0, mapFind sid st.users = some u0 → u0.username = some m →
      mapFind s st.users = some w → s ≠ sid → w.currentRoomId ≠ none → w.username ≠ some m := by
    intro m s w u0 hu0 hm0 hfw hs hwr hwn
    exact hs (gc.uniq s w sid u0 m hfw hu0 hwn hm0 hwr
      (g5 sid u0 hu0 (by rw [hm0]; exact fun hh => Option.noConfusion hh)))
  obtain ⟨g1, g2, g3, _⟩ := good_joinRoom gc hothers hfree
  refine ⟨g1, ?_⟩
  intro s w hf hn
  by_cases hs : s = sid
  · rcases g3 with heq | ⟨u1, hfind1, hc1, _⟩
    · rw [heq] at hf
      exact g5 s w hf hn
    · rw [hs] at hf
      rw [hf] at hfind1
      rw [Option.some.inj hfind1, hc1]
      exact fun hh => Option.noConfusion hh
  · exact g2 s w hf hs hn

theorem good_switchRoom {st : State} (sid rid : String) (now : Nat) (g : Good st) :
    Good (switchRoom st sid rid now).1 :=
  good_of_joinRoom sid rid none now g

theorem good_joinRoomByPin {st : State} (sid pinStr : String) (now : Nat) (g : Good st) :
    Good (joinRoomByPin st sid pinStr now).1 := by
  simp only [joinRoomByPin]
  split
  · exact g
  · split
    · exact good_of_joinRoom _ _ _ _ g
    · exact g

theorem good_register {st : State} (g : Good st) {rid : String}
    (hfresh : mapFind rid st.rooms = none) (nm p : String) :
    Good { st with rooms := mapSet rid ⟨nm, some p, [], []⟩ st.rooms } := by
  obtain ⟨gc, g5⟩ := g
  refine ⟨⟨nodupKeys_set gc.nodupR, ?_, gc.named, gc.uniq, ?_, ?_⟩, g5⟩
  · intro r rm hfind m
    simp only at hfind
    rw [mapFind_set] at hfind
    by_cases hcr : r = rid
    · rw [if_pos hcr] at hfind
      rw [← Option.some.inj hfind]
      constructor
      · intro hm
        exact absurd hm (List.not_mem_nil m)
      · rintro ⟨s, w, hfw, hwr, hwn⟩
        obtain ⟨rm2, hrm2⟩ := gc.closed s w r hfw hwr
        rw [hcr, hfresh] at hrm2
        exact Option.noConfusion hrm2
    · rw [if_neg hcr] at hfind
      exact gc.mem r rm hfind m
  · obtain ⟨groom, hg, hgp⟩ := gc.general
    by_cases hgr : GENERAL_ROOM_ID = rid
    · rw [hgr, hfresh] at hg
      exact Option.noConfusion hg
    · exact ⟨groom, by simp only; rw [mapFind_set, if_neg hgr]; exact hg, hgp⟩
  · intro s w r hfw hwr
    by_cases hcr : r = rid
    · exact ⟨⟨nm, some p, [], []⟩, by simp only; rw [mapFind_set, if_pos hcr]⟩
    · obtain ⟨rm, hrm⟩ := gc.closed s w r hfw hwr
      exact ⟨rm, by simp only; rw [mapFind_set, if_neg hcr]; exact hrm⟩

theorem good_createRoom {st : State} (sid nameStr pinStr : String) (now : Nat) (g : Good st) :
    Good (createRoom st sid nameStr pinStr now).1 := by
  simp only [createRoom]
  split
  · exact g
  · split
    · exact g
    · rename_i hfresh
      have hf2 : mapFind (genRoomId now) st.rooms = none := by
        rcases hmf : mapFind (genRoomId now) st.rooms with _ | v
        · rfl
        · rw [hmf] at hfresh
          simp at hfresh
      exact good_of_joinRoom _ _ _ _ (good_register g hf2 (jsTrim nameStr) (jsTrim pinStr))

end SJ

namespace SJ

theorem goodcore_updateLobby {st : State} {sid : String} {u v : UserData}
    (gc : GoodCore st) (hu : mapFind sid st.users = some u)
    (hur : u.currentRoomId = none) (hvr : v.currentRoomId = none) :
    GoodCore { st with users := mapSet sid v st.users } := by
  have hfu : ∀ s, mapFind s (mapSet sid v st.users) =
      if s = sid then some v else mapFind s st.users := fun s => mapFind_set s sid v st.users
  refine ⟨gc.nodupR, ?_, ?_, ?_, gc.general, ?_⟩
  · intro r rm hfind m
    rw [gc.mem r rm hfind m]
    constructor
    · rintro ⟨s, w, hfw, hwr, hwn⟩
      have hs : s ≠ sid := by
        intro hh
        rw [hh, hu] at hfw
        rw [← Option.some.inj hfw, hur] at hwr
        exact Option.noConfusion hwr
      exact ⟨s, w, by rw [hfu, if_neg hs]; exact hfw, hwr, hwn⟩
    · rintro ⟨s, w, hfw, hwr, hwn⟩
      rw [hfu] at hfw
      by_cases hs : s = sid
      · rw [if_pos hs] at hfw
        rw [← Option.some.inj hfw, hvr] at hwr
        exact Option.noConfusion hwr
      · rw [if_neg hs] at hfw
        exact ⟨s, w, hfw, hwr, hwn⟩
  · intro s w hfw hwr
    rw [hfu] at hfw
    by_cases hs : s = sid
    · rw [if_pos hs] at hfw
      rw [← Option.some.inj hfw, hvr] at hwr
      exact absurd rfl hwr
    · rw [if_neg hs] at hfw
      exact gc.named s w hfw hwr
  · intro s1 w1 s2 w2 m h1 h2 hn1 hn2 hc1 hc2
    rw [hfu] at h1 h2
    by_cases hs1 : s1 = sid
    · rw [if_pos hs1] at h1
      rw [← Option.some.inj h1, hvr] at hc1
      exact absurd rfl hc1
    · rw [if_neg hs1] at h1
      by_cases hs2 : s2 = sid
      · rw [if_pos hs2] at h2
        rw [← Option.some.inj h2, hvr] at hc2
        exact absurd rfl hc2
      · rw [if_neg hs2] at h2
        exact gc.uniq s1 w1 s2 w2 m h1 h2 hn1 hn2 hc1 hc2
  · intro s w r hfw hwr
    rw [hfu] at hfw
    by_cases hs : s = sid
    · rw [if_pos hs] at hfw
      rw [← Option.some.inj hfw, hvr] at hwr
      exact Option.noConfusion hwr
    · rw [if_neg hs] at hfw
      exact gc.closed s w r hfw hwr

theorem good_setInitialUsername {st : State} (sid nameStr : String) (now : Nat) (g : Good st)
    (hunnamed : ∀ u, mapFind sid st.users = some u → u.username = none) :
    Good (setInitialUsername st sid nameStr now).1 := by
  obtain ⟨gc, g5⟩ := g
  simp only [setInitialUsername]
  split
  · exact ⟨gc, g5⟩
  · split
    · exact ⟨gc, g5⟩
    · rename_i hne htaken
      rcases hu : mapFind sid st.users with _ | u
      · exact ⟨gc, g5⟩
      · have hur : u.username = none := hunnamed u hu
        have hroomnone : u.currentRoomId = none := by
          rcases hcc : u.currentRoomId with _ | c
          · rfl
          · exact absurd hur
              (gc.named sid u hu (by rw [hcc]; exact fun hh => Option.noConfusion hh))
        have gc1 : GoodCore { st with
            users := mapSet sid { u with username := some (jsTrim nameStr) } st.users } :=
          goodcore_updateLobby gc hu hroomnone hroomnone
        have hfu1 : mapFind sid (mapSet sid { u with username := some (jsTrim nameStr) } st.users) =
            some { u with username := some (jsTrim nameStr) } := by
          rw [mapFind_set, if_pos rfl]
        have hothers1 : ∀ s w,
            mapFind s (mapSet sid { u with username := some (jsTrim nameStr) } st.users) = some w →
            s ≠ sid → w.username ≠ none → w.currentRoomId ≠ none := by
          intro s w hfw hs hwn
          rw [mapFind_set, if_neg hs] at hfw
          exact g5 s w hfw hwn
        have hfree1 : ∀ m s w u0,
            mapFind sid (mapSet sid { u with username := some (jsTrim nameStr) } st.users) = some u0 →
            u0.username = some m →
            mapFind s (mapSet sid { u with username := some (jsTrim nameStr) } st.users) = some w →
            s ≠ sid → w.currentRoomId ≠ none → w.username ≠ some m := by
          intro m s w u0 hu0 hm0 hfw hs hwr hwn
          rw [hfu1] at hu0
          have hmu : m = jsTrim nameStr := by
            rw [← Option.some.inj hu0] at hm0
            exact (Option.some.inj hm0).symm
          rw [mapFind_set, if_neg hs] at hfw
          apply htaken
          have : ∃ p ∈ st.users, p.2.username = some (jsTrim nameStr) ∧ p.2.currentRoomId ≠ none := by
            refine ⟨(s, w), mapFind_mem hfw, ?_, hwr⟩
            rw [hwn, hmu]
          simpa using this
        obtain ⟨g1, g2, g3, g4⟩ := good_joinRoom gc1 hothers1 hfree1
        obtain ⟨groom, hg, hgp⟩ := gc.general
        have hg1 : mapFind GENERAL_ROOM_ID
            ({ st with users := mapSet sid { u with username := some (jsTrim nameStr) } st.users }).rooms =
            some groom := hg
        obtain ⟨u1, hfind1, hc1, hn1⟩ :=
          g4 { u with username := some (jsTrim nameStr) } groom hfu1
            (by show some (jsTrim nameStr) ≠ none; exact fun hh => Option.noConfusion hh)
            hg1
            (by rw [hgp]; rfl)
            (by show u.currentRoomId ≠ some GENERAL_ROOM_ID
                rw [hroomnone]
                exact fun hh => Option.noConfusion hh)
        refine ⟨g1, ?_⟩
        intro s w hf hn
        by_cases hs : s = sid
        · rw [hs] at hf
          rw [hf] at hfind1
          rw [Option.some.inj hfind1, hc1]
          exact fun hh => Option.noConfusion hh
        · exact g2 s w hf hs hn

theorem good_leaveCurrentRoom {st : State} (sid : String) (now : Nat) (g : Good st) :
    Good (leaveCurrentRoom st sid now).1 := by
  obtain ⟨gc, g5⟩ := g
  rcases hu : mapFind sid st.users with _ | u
  · simpa only [leaveCurrentRoom, hu] using (⟨gc, g5⟩ : Good st)
  · rcases hc : u.currentRoomId with _ | rid
    · simpa only [leaveCurrentRoom, hu, hc] using (⟨gc, g5⟩ : Good st)
    · by_cases hgen : rid ≠ GENERAL_ROOM_ID
      · simp only [leaveCurrentRoom, hu, hc, if_pos hgen]
        have hnr := gc.named sid u hu (by rw [hc]; exact fun hh => Option.noConfusion hh)
        rcases hn : u.username with _ | n
        · exact absurd hn hnr
        · obtain ⟨room, hroom⟩ := gc.closed sid u rid hu hc
          obtain ⟨gl, lacting, lothers, lrooms, lfree⟩ := goodcore_leave gc hu hroom hn hc now
          have hothersL : ∀ s w,
              mapFind s (leaveRoom st sid rid false now).1.users = some w → s ≠ sid →
              w.username ≠ none → w.currentRoomId ≠ none := by
            intro s w hfw hs hwn
            rw [lothers s hs] at hfw
            exact g5 s w hfw hwn
          have hfreeL : ∀ m s w u0,
              mapFind sid (leaveRoom st sid rid false now).1.users = some u0 →
              u0.username = some m →
              mapFind s (leaveRoom st sid rid false now).1.users = some w →
              s ≠ sid → w.currentRoomId ≠ none → w.username ≠ some m := by
            intro m s w u0 hu0 hm0 hfw hs hwr hwn
            rw [lacting] at hu0
            have hmn : m = n := by
              rw [← Option.some.inj hu0] at hm0
              have h2 : u.username = some m := hm0
              rw [hn] at h2
              exact (Option.some.inj h2).symm
            rw [hmn] at hwn
            exact lfree s w hfw hwr hwn
          obtain ⟨g1, g2, g3, g4⟩ := good_joinRoom gl hothersL hfreeL
          obtain ⟨groom, hg, hgp⟩ := gc.general
          have hgL : mapFind GENERAL_ROOM_ID (leaveRoom st sid rid false now).1.rooms = some groom := by
            rw [lrooms GENERAL_ROOM_ID (fun hh => hgen hh.symm)]
            exact hg
          obtain ⟨u1, hfind1, hc1, hn1⟩ :=
            g4 { u with currentRoomId := none } groom lacting
              (by show u.username ≠ none; rw [hn]; exact fun hh => Option.noConfusion hh)
              hgL
              (by rw [hgp]; rfl)
              (by show (none : Option String) ≠ some GENERAL_ROOM_ID
                  exact fun hh => Option.noConfusion hh)
          refine ⟨g1, ?_⟩
          intro s w hf hnw
          by_cases hs : s = sid
          · rw [hs] at hf
            rw [hf] at hfind1
            rw [Option.some.inj hfind1, hc1]
            exact fun hh => Option.noConfusion hh
          · exact g2 s w hf hs hnw
      · simpa only [leaveCurrentRoom, hu, hc, if_neg hgen] using (⟨gc, g5⟩ : Good st)

end SJ

namespace SJ

theorem good_changeUsername {st : State} (sid nameStr : String) (now : Nat) (g : Good st)
    (hnamed : ∀ u, mapFind sid st.users = some u → u.username ≠ none) :
    Good (changeUsername st sid nameStr now).1 := by
  obtain ⟨gc, g5⟩ := g
  rcases hu : mapFind sid st.users with _ | u
  · simp only [changeUsername, hu]
    split
    · exact ⟨gc, g5⟩
    · split
      · exact ⟨gc, g5⟩
      · split
        · exact ⟨gc, g5⟩
        · exact ⟨gc, g5⟩
  · rcases ho : u.username with _ | o
    · exact absurd ho (hnamed u hu)
    · have hcr : u.currentRoomId ≠ none :=
        g5 sid u hu (by rw [ho]; exact fun hh => Option.noConfusion hh)
      rcases hc : u.currentRoomId with _ | cur
      · exact absurd hc hcr
      · obtain ⟨room, hroom⟩ := gc.closed sid u cur hu hc
        simp only [changeUsername, hu, ho, hc, hroom]
        split
        · exact ⟨gc, g5⟩
        · split
          · exact ⟨gc, g5⟩
          · split
            · exact ⟨gc, g5⟩
            · rename_i hne hident htaken
              have hto : jsTrim nameStr ≠ o := fun hh => hident (by rw [hh])
              have hfreeT : ∀ s w, mapFind s st.users = some w → w.currentRoomId ≠ none →
                  w.username ≠ some (jsTrim nameStr) := by
                intro s w hfw hwr hwn
                apply htaken
                have hx : ∃ p ∈ st.users, p.2.username = some (jsTrim nameStr) ∧
                    p.2.currentRoomId ≠ none ∧ p.2.username ≠ some o := by
                  refine ⟨(s, w), mapFind_mem hfw, hwn, hwr, ?_⟩
                  rw [hwn]
                  exact fun hh => hto (Option.some.inj hh)
                simpa [and_assoc] using hx
              have hfu : ∀ s, mapFind s (mapSet sid
                  { username := some (jsTrim nameStr), currentRoomId := some cur } st.users) =
                  if s = sid then some { username := some (jsTrim nameStr), currentRoomId := some cur }
                  else mapFind s st.users := fun s => mapFind_set s sid _ st.users
              refine ⟨⟨nodupKeys_set gc.nodupR, ?_, ?_, ?_, ?_, ?_⟩, ?_⟩
              · intro r rm hfind m
                simp only at hfind
                rw [mapFind_set] at hfind
                by_cases hcrr : r = cur
                · rw [if_pos hcrr] at hfind
                  have hrm : rm = { room with
                      usersInRoom := setAdd (jsTrim nameStr) (setDel o room.usersInRoom)
                      history := room.history ++
                        [{ kind := some "system", user := none
                           text := "<strong>" ++ o ++ "</strong> is now <strong>" ++
                             jsTrim nameStr ++ "</strong>."
                           timestamp := now, room := none }] } := (Option.some.inj hfind).symm
                  rw [hrm, hcrr]
                  show m ∈ setAdd (jsTrim nameStr) (setDel o room.usersInRoom) ↔ _
                  constructor
                  · intro hm
                    rcases mem_setAdd.mp hm with hmt | hmm
                    · refine ⟨sid, { username := some (jsTrim nameStr), currentRoomId := some cur },
                        by rw [hfu, if_pos rfl], rfl, ?_⟩
                      show some (jsTrim nameStr) = some m
                      rw [hmt]
                    · have hm2 := mem_setDel.mp hmm
                      obtain ⟨s, w, hfw, hwr, hwn⟩ := (gc.mem cur room hroom m).mp hm2.1
                      have hs : s ≠ sid := by
                        intro hh
                        rw [hh, hu] at hfw
                        rw [← Option.some.inj hfw, ho] at hwn
                        exact hm2.2 (Option.some.inj hwn).symm
                      exact ⟨s, w, by rw [hfu, if_neg hs]; exact hfw, hwr, hwn⟩
                  · rintro ⟨s, w, hfw, hwr, hwn⟩
                    rw [hfu] at hfw
                    by_cases hs : s = sid
                    · rw [if_pos hs] at hfw
                      have hwu : w = { username := some (jsTrim nameStr), currentRoomId := some cur } :=
                        (Option.some.inj hfw).symm
                      rw [hwu] at hwn
                      have hmt : m = jsTrim nameStr := by
                        have h3 : some (jsTrim nameStr) = some m := hwn
                        exact (Option.some.inj h3).symm
                      exact mem_setAdd.mpr (.inl hmt)
                    · rw [if_neg hs] at hfw
                      refine mem_setAdd.mpr (.inr (mem_setDel.mpr
                        ⟨(gc.mem cur room hroom m).mpr ⟨s, w, hfw, hwr, hwn⟩, ?_⟩))
                      intro hmo
                      rw [hmo] at hwn
                      exact hs (gc.uniq s w sid u o hfw hu hwn ho
                        (by rw [hwr]; exact fun hh => Option.noConfusion hh) hcr)
                · rw [if_neg hcrr] at hfind
                  rw [gc.mem r rm hfind m]
                  constructor
                  · rintro ⟨s, w, hfw, hwr, hwn⟩
                    have hs : s ≠ sid := by
                      intro hh
                      rw [hh, hu] at hfw
                      rw [← Option.some.inj hfw, hc] at hwr
                      exact hcrr (Option.some.inj hwr).symm
                    exact ⟨s, w, by rw [hfu, if_neg hs]; exact hfw, hwr, hwn⟩
                  · rintro ⟨s, w, hfw, hwr, hwn⟩
                    rw [hfu] at hfw
                    by_cases hs : s = sid
                    · rw [if_pos hs] at hfw
                      have hwu : w = { username := some (jsTrim nameStr), currentRoomId := some cur } :=
                        (Option.some.inj hfw).symm
                      rw [hwu] at hwr
                      have h3 : some cur = some r := hwr
                      exact absurd (Option.some.inj h3).symm hcrr
                    · rw [if_neg hs] at hfw
                      exact ⟨s, w, hfw, hwr, hwn⟩
              · intro s w hfw hwr
                simp only at hfw
                rw [hfu] at hfw
                by_cases hs : s = sid
                · rw [if_pos hs] at hfw
                  rw [← Option.some.inj hfw]
                  show some (jsTrim nameStr) ≠ none
                  exact fun hh => Option.noConfusion hh
                · rw [if_neg hs] at hfw
                  exact gc.named s w hfw hwr
              · intro s1 w1 s2 w2 m h1 h2 hn1 hn2 hc1 hc2
                simp only at h1 h2
                rw [hfu] at h1 h2
                by_cases hs1 : s1 = sid <;> by_cases hs2 : s2 = sid
                · rw [hs1, hs2]
                · exfalso
                  rw [if_pos hs1] at h1
                  rw [if_neg hs2] at h2
                  have hm : m = jsTrim nameStr := by
                    rw [← Option.some.inj h1] at hn1
                    have h3 : some (jsTrim nameStr) = some m := hn1
                    exact (Option.some.inj h3).symm
                  rw [hm] at hn2
                  exact hfreeT s2 w2 h2 hc2 hn2
                · exfalso
                  rw [if_neg hs1] at h1
                  rw [if_pos hs2] at h2
                  have hm : m = jsTrim nameStr := by
                    rw [← Option.some.inj h2] at hn2
                    have h3 : some (jsTrim nameStr) = some m := hn2
                    exact (Option.some.inj h3).symm
                  rw [hm] at hn1
                  exact hfreeT s1 w1 h1 hc1 hn1
                · rw [if_neg hs1] at h1
                  rw [if_neg hs2] at h2
                  exact gc.uniq s1 w1 s2 w2 m h1 h2 hn1 hn2 hc1 hc2
              · obtain ⟨groom, hg, hgp⟩ := gc.general
                by_cases hgr : GENERAL_ROOM_ID = cur
                · refine ⟨_, by simp only; rw [mapFind_set, if_pos hgr], ?_⟩
                  have hgroom : groom = room := by
                    rw [hgr] at hg
                    rw [hg] at hroom
                    exact Option.some.inj hroom
                  show room.pin = none
                  rw [← hgroom]
                  exact hgp
                · exact ⟨groom, by simp only; rw [mapFind_set, if_neg hgr]; exact hg, hgp⟩
              · intro s w r hfw hwr
                simp only at hfw ⊢
                rw [hfu] at hfw
                by_cases hcrr : r = cur
                · exact ⟨_, by rw [mapFind_set, if_pos hcrr]⟩
                · by_cases hs : s = sid
                  · rw [if_pos hs] at hfw
                    have hwu : w = { username := some (jsTrim nameStr), currentRoomId := some cur } :=
                      (Option.some.inj hfw).symm
                    rw [hwu] at hwr
                    have h3 : some cur = some r := hwr
                    exact absurd (Option.some.inj h3).symm hcrr
                  · rw [if_neg hs] at hfw
                    obtain ⟨rm, hrm⟩ := gc.closed s w r hfw hwr
                    exact ⟨rm, by rw [mapFind_set, if_neg hcrr]; exact hrm⟩
              · intro s w hfw hwn
                simp only at hfw
                rw [hfu] at hfw
                by_cases hs : s = sid
                · rw [if_pos hs] at hfw
                  rw [← Option.some.inj hfw]
                  show (some cur : Option String) ≠ none
                  exact fun hh => Option.noConfusion hh
                · rw [if_neg hs] at hfw
                  exact g5 s w hfw hwn

end SJ

namespace SJ

theorem good_eraseLobby {st : State} (g : Good st) (sid : String)
    (hlob : ∀ u, mapFind sid st.users = some u → u.currentRoomId = none)
    (sr : List (String × List String)) :
    Good { users := mapErase sid st.users, rooms := st.rooms, userSocketRooms := sr } := by
  obtain ⟨gc, g5⟩ := g
  have hfu : ∀ s, mapFind s (mapErase sid st.users) =
      if s = sid then none else mapFind s st.users := fun s => mapFind_erase s sid st.users
  refine ⟨⟨gc.nodupR, ?_, ?_, ?_, gc.general, ?_⟩, ?_⟩
  · intro r rm hfind m
    rw [gc.mem r rm hfind m]
    constructor
    · rintro ⟨s, w, hfw, hwr, hwn⟩
      have hs : s ≠ sid := by
        intro hh
        rw [hh] at hfw
        rw [hlob w hfw] at hwr
        exact Option.noConfusion hwr
      exact ⟨s, w, by rw [hfu, if_neg hs]; exact hfw, hwr, hwn⟩
    · rintro ⟨s, w, hfw, hwr, hwn⟩
      rw [hfu] at hfw
      by_cases hs : s = sid
      · rw [if_pos hs] at hfw
        exact Option.noConfusion hfw
      · rw [if_neg hs] at hfw
        exact ⟨s, w, hfw, hwr, hwn⟩
  · intro s w hfw hwr
    rw [hfu] at hfw
    by_cases hs : s = sid
    · rw [if_pos hs] at hfw
      exact Option.noConfusion hfw
    · rw [if_neg hs] at hfw
      exact gc.named s w hfw hwr
  · intro s1 w1 s2 w2 m h1 h2 hn1 hn2 hc1 hc2
    rw [hfu] at h1 h2
    by_cases hs1 : s1 = sid
    · rw [if_pos hs1] at h1
      exact Option.noConfusion h1
    · rw [if_neg hs1] at h1
      by_cases hs2 : s2 = sid
      · rw [if_pos hs2] at h2
        exact Option.noConfusion h2
      · rw [if_neg hs2] at h2
        exact gc.uniq s1 w1 s2 w2 m h1 h2 hn1 hn2 hc1 hc2
  · intro s w r hfw hwr
    rw [hfu] at hfw
    by_cases hs : s = sid
    · rw [if_pos hs] at hfw
      exact Option.noConfusion hfw
    · rw [if_neg hs] at hfw
      exact gc.closed s w r hfw hwr
  · intro s w hfw hwn
    rw [hfu] at hfw
    by_cases hs : s = sid
    · rw [if_pos hs] at hfw
      exact Option.noConfusion hfw
    · rw [if_neg hs] at hfw
      exact g5 s w hfw hwn

theorem good_onDisconnect {st : State} (sid : String) (now : Nat) (g : Good st) :
    Good (onDisconnect st sid now).1 := by
  obtain ⟨gc, g5⟩ := g
  rcases hu : mapFind sid st.users with _ | u
  · simp only [onDisconnect, hu]
    exact good_eraseLobby ⟨gc, g5⟩ sid (fun w hfw => absurd hfw (by rw [hu]; simp)) _
  · rcases hc : u.currentRoomId with _ | cur
    · simp only [onDisconnect, hu, hc]
      exact good_eraseLobby ⟨gc, g5⟩ sid
        (fun w hfw => by rw [hu] at hfw; rw [← Option.some.inj hfw]; exact hc) _
    · have hnr := gc.named sid u hu (by rw [hc]; exact fun hh => Option.noConfusion hh)
      rcases hn : u.username with _ | n
      · exact absurd hn hnr
      · obtain ⟨room, hroom⟩ := gc.closed sid u cur hu hc
        have husers := leaveRoom_users_disconnect hu hroom hn now
        have hrooms := leaveRoom_rooms hu hroom hn true now
        simp only [onDisconnect, hu, hc]
        rw [husers, hrooms]
        have hfu : ∀ s, mapFind s (mapErase sid st.users) =
            if s = sid then none else mapFind s st.users := fun s => mapFind_erase s sid st.users
        have hroomfind : ∀ r, r ≠ cur →
            mapFind r (if (setDel n room.usersInRoom).isEmpty && cur ≠ GENERAL_ROOM_ID then
              mapErase cur (mapSet cur (leftRoom room n cur now) st.rooms)
            else mapSet cur (leftRoom room n cur now) st.rooms) = mapFind r st.rooms := by
          intro r hne
          split
          · rw [mapFind_erase, if_neg hne, mapFind_set, if_neg hne]
          · rw [mapFind_set, if_neg hne]
        have hridcase :
            (mapFind cur (if (setDel n room.usersInRoom).isEmpty && cur ≠ GENERAL_ROOM_ID then
                mapErase cur (mapSet cur (leftRoom room n cur now) st.rooms)
              else mapSet cur (leftRoom room n cur now) st.rooms) = none ∧
              (∀ y ∈ room.usersInRoom, y = n) ∧ cur ≠ GENERAL_ROOM_ID) ∨
            mapFind cur (if (setDel n room.usersInRoom).isEmpty && cur ≠ GENERAL_ROOM_ID then
                mapErase cur (mapSet cur (leftRoom room n cur now) st.rooms)
              else mapSet cur (leftRoom room n cur now) st.rooms) = some (leftRoom room n cur now) := by
          split
          · rename_i hcond
            simp only [Bool.and_eq_true, List.isEmpty_iff, decide_eq_true_eq] at hcond
            exact .inl ⟨by rw [mapFind_erase, if_pos rfl], setDel_eq_nil_iff.mp hcond.1, hcond.2⟩
          · exact .inr (by rw [mapFind_set, if_pos rfl])
        refine ⟨⟨?_, ?_, ?_, ?_, ?_, ?_⟩, ?_⟩
        · split
          · exact nodupKeys_erase (nodupKeys_set gc.nodupR)
          · exact nodupKeys_set gc.nodupR
        · intro r rm hfind m
          by_cases hcr : r = cur
          · subst hcr
            rcases hridcase with ⟨hdel, _, _⟩ | hkeep
            · rw [hfind] at hdel
              exact Option.noConfusion hdel
            · rw [hfind] at hkeep
              rw [Option.some.inj hkeep, leftRoom]
              constructor
              · intro hm
                have hm2 := mem_setDel.mp hm
                obtain ⟨s, w, hfw, hwr, hwn⟩ := (gc.mem r room hroom m).mp hm2.1
                have hs : s ≠ sid := by
                  intro hh
                  rw [hh, hu] at hfw
                  rw [← Option.some.inj hfw, hn] at hwn
                  exact hm2.2 (Option.some.inj hwn).symm
                exact ⟨s, w, by rw [hfu, if_neg hs]; exact hfw, hwr, hwn⟩
              · rintro ⟨s, w, hfw, hwr, hwn⟩
                rw [hfu] at hfw
                by_cases hs : s = sid
                · rw [if_pos hs] at hfw
                  exact Option.noConfusion hfw
                · rw [if_neg hs] at hfw
                  refine mem_setDel.mpr ⟨(gc.mem r room hroom m).mpr ⟨s, w, hfw, hwr, hwn⟩, ?_⟩
                  intro hmn
                  rw [hmn] at hwn
                  exact hs (gc.uniq s w sid u n hfw hu hwn hn
                    (by rw [hwr]; exact fun hh => Option.noConfusion hh)
                    (by rw [hc]; exact fun hh => Option.noConfusion hh))
          · have hfind2 : mapFind r st.rooms = some rm := by
              rw [← hroomfind r hcr]
              exact hfind
            rw [gc.mem r rm hfind2 m]
            constructor
            · rintro ⟨s, w, hfw, hwr, hwn⟩
              have hs : s ≠ sid := by
                intro hh
                rw [hh, hu] at hfw
                rw [← Option.some.inj hfw, hc] at hwr
                exact hcr (Option.some.inj hwr).symm
              exact ⟨s, w, by rw [hfu, if_neg hs]; exact hfw, hwr, hwn⟩
            · rintro ⟨s, w, hfw, hwr, hwn⟩
              rw [hfu] at hfw
              by_cases hs : s = sid
              · rw [if_pos hs] at hfw
                exact Option.noConfusion hfw
              · rw [if_neg hs] at hfw
                exact ⟨s, w, hfw, hwr, hwn⟩
        · intro s w hfw hwr
          rw [hfu] at hfw
          by_cases hs : s = sid
          · rw [if_pos hs] at hfw
            exact Option.noConfusion hfw
          · rw [if_neg hs] at hfw
            exact gc.named s w hfw hwr
        · intro s1 w1 s2 w2 m h1 h2 hn1 hn2 hc1 hc2
          rw [hfu] at h1 h2
          by_cases hs1 : s1 = sid
          · rw [if_pos hs1] at h1
            exact Option.noConfusion h1
          · rw [if_neg hs1] at h1
            by_cases hs2 : s2 = sid
            · rw [if_pos hs2] at h2
              exact Option.noConfusion h2
            · rw [if_neg hs2] at h2
              exact gc.uniq s1 w1 s2 w2 m h1 h2 hn1 hn2 hc1 hc2
        · obtain ⟨groom, hg, hgp⟩ := gc.general
          by_cases hgr : GENERAL_ROOM_ID = cur
          · rcases hridcase with ⟨_, _, hgen⟩ | hkeep
            · exact absurd hgr.symm hgen
            · have hX : ∀ X : List (String × Room),
                  mapFind GENERAL_ROOM_ID X = mapFind cur X := by
                intro X
                rw [hgr]
              refine ⟨leftRoom room n cur now, by rw [hX]; exact hkeep, ?_⟩
              have hgroom : groom = room := by
                rw [hgr] at hg
                rw [hg] at hroom
                exact Option.some.inj hroom
              show room.pin = none
              rw [← hgroom]
              exact hgp
          · exact ⟨groom, by rw [hroomfind GENERAL_ROOM_ID hgr]; exact hg, hgp⟩
        · intro s w r hfw hwr
          rw [hfu] at hfw
          by_cases hs : s = sid
          · rw [if_pos hs] at hfw
            exact Option.noConfusion hfw
          · rw [if_neg hs] at hfw
            by_cases hcr : r = cur
            · rw [hcr] at hwr ⊢
              rcases hridcase with ⟨_, hall, _⟩ | hkeep
              · exfalso
                have hnamed2 := gc.named s w hfw (by rw [hwr]; exact fun hh => Option.noConfusion hh)
                rcases hw : w.username with _ | m
                · exact hnamed2 hw
                · have hmem : m ∈ room.usersInRoom :=
                    (gc.mem cur room hroom m).mpr ⟨s, w, hfw, hwr, hw⟩
                  have hmn := hall m hmem
                  rw [hmn] at hw
                  exact hs (gc.uniq s w sid u n hfw hu hw hn
                    (by rw [hwr]; exact fun hh => Option.noConfusion hh)
                    (by rw [hc]; exact fun hh => Option.noConfusion hh))
              · exact ⟨leftRoom room n cur now, hkeep⟩
            · obtain ⟨rm, hrm⟩ := gc.closed s w r hfw hwr
              exact ⟨rm, by rw [hroomfind r hcr]; exact hrm⟩
        · intro s w hfw hwn
          rw [hfu] at hfw
          by_cases hs : s = sid
          · rw [if_pos hs] at hfw
            exact Option.noConfusion hfw
          · rw [if_neg hs] at hfw
            exact g5 s w hfw hwn

end SJ

namespace SJ

theorem good_init : Good initState := by
  refine ⟨⟨?_, ?_, ?_, ?_, ?_, ?_⟩, ?_⟩
  · decide
  · intro rid room hfind n
    have hmem := mapFind_mem hfind
    rw [show initState.rooms =
      [(GENERAL_ROOM_ID, ⟨"General", none, [], []⟩)] from rfl, List.mem_singleton] at hmem
    have hroom : room = ⟨"General", none, [], []⟩ := congrArg Prod.snd hmem
    rw [hroom]
    constructor
    · intro hm
      exact absurd hm (List.not_mem_nil n)
    · rintro ⟨s, u, hf, _, _⟩
      have := mapFind_mem hf
      exact absurd this (List.not_mem_nil (s, u))
  · intro s u hf
    have := mapFind_mem hf
    exact absurd this (List.not_mem_nil (s, u))
  · intro s1 u1 s2 u2 m h1 _ _ _ _ _
    have := mapFind_mem h1
    exact absurd this (List.not_mem_nil (s1, u1))
  · exact ⟨⟨"General", none, [], []⟩, by decide, rfl⟩
  · intro s u rid hf
    have := mapFind_mem hf
    exact absurd this (List.not_mem_nil (s, u))
  · intro s u hf
    have := mapFind_mem hf
    exact absurd this (List.not_mem_nil (s, u))

theorem reach_good {st : State} (h : Reach st) : Good st := by
  induction h with
  | init => exact good_init
  | connect st sid hr hfresh ih => exact good_onConnect ih hfresh
  | claimName st sid name now hr hun ih => exact good_setInitialUsername sid name now ih hun
  | rename st sid name now hr hnm ih => exact good_changeUsername sid name now ih hnm
  | create st sid name pin now hr ih => exact good_createRoom sid name pin now ih
  | joinByPin st sid pin now hr ih => exact good_joinRoomByPin sid pin now ih
  | switch st sid roomId now hr ih => exact good_switchRoom sid roomId now ih
  | leaveCur st sid now hr ih => exact good_leaveCurrentRoom sid now ih
  | chatMsg st sid text ts hr ih => exact good_chatMessage ih sid text ts
  | chatAct st sid text ts hr ih => exact good_chatAction ih sid text ts
  | typing st sid roomId hr ih => rw [typingEvent_state]; exact ih
  | stopTyping st sid roomId hr ih => rw [stopTypingEvent_state]; exact ih
  | disconnect st sid now hr ih => exact good_onDisconnect sid now ih

end SJ

/-! ## Claim C1 -/

/-- C1 (counterexample): the claim fails on `server.js` as stated.  After the
reachable event sequence connect, `set initial username "alice"`,
`set initial username "bob"` on one socket, the general room's member set is
still `{"alice"}` while the only session's display name is `"bob"` and its
`currentRoomId` is the general room, because the re-claim renames the session
and then the auto-join returns early on "already in this room" without
touching the member set. -/
theorem sj_members_invariant_counterexample :
    ¬ SJ.Inv (SJ.step (SJ.step (SJ.step SJ.initState "s1" .connect 0).1
      "s1" (.setInitialUsername "alice") 1).1 "s1" (.setInitialUsername "bob") 2).1 := by
  intro hinv
  obtain ⟨s, u, hf, hc, hn⟩ :=
    (hinv "general"
      ⟨"General", none,
        [⟨some "system", none, "<strong>alice</strong> has joined the room.", 1, some "general"⟩],
        ["alice"]⟩ (by decide) "alice").mp (by decide)
  rw [show (SJ.step (SJ.step (SJ.step SJ.initState "s1" .connect 0).1
      "s1" (.setInitialUsername "alice") 1).1 "s1" (.setInitialUsername "bob") 2).1.users =
      [("s1", ⟨some "bob", some "general"⟩)] from by decide] at hf
  have hmem := mapFind_mem hf
  rw [List.mem_singleton] at hmem
  have hu2 : u = ⟨some "bob", some "general"⟩ := congrArg Prod.snd hmem
  rw [hu2] at hn
  exact absurd (Option.some.inj hn) (by decide)

/-- C1 (amended): in `server.js`, for every state reachable from startup by
the handlers — under orderly transport usage: fresh socket ids on connect,
`set initial username` only delivered for sessions with no name yet and
`change username` only for named sessions — every room's member set equals
exactly the set of display names of sessions whose `currentRoomId` is that
room, after every transition (connect, claim, rename, create, join-by-pin,
switch, leave, chat, typing, disconnect). -/
theorem sj_reach_members_invariant (st : SJ.State) (h : SJ.Reach st) : SJ.Inv st :=
  (SJ.reach_good h).1.mem

/-- Witness for `sj_reach_members_invariant` at the initial state. -/
theorem sj_reach_members_invariant_witness : SJ.Reach SJ.initState ∧ SJ.Inv SJ.initState :=
  ⟨SJ.Reach.init, sj_reach_members_invariant SJ.initState SJ.Reach.init⟩

/-! ## Claims C2 and C3 -/

/-- C2: in `part_000`, the `leave current room` handler removes the last
member but never deletes the emptied non-default room (only the disconnect
handler does): the `part_000` state after alice connects, names herself,
creates room `1234` and then leaves it. -/
def c2State : P0.State :=
  (P0.step (P0.step (P0.step (P0.step P0.initState
    "s1" .connect 0).1 "s1" (.setInitialUsername "alice") 0).1
    "s1" (.createRoom "Plans" (some "1234")) 1).1 "s1" .leaveCurrentRoom 2).1

/-- C2: in `part_000`, after the last member leaves room `1234` via `leave
current room`, the room is still registered with an empty member set and
still appears in the room list, contradicting the claim that a non-default
room whose last member leaves is deleted and absent from the subsequent
room-list query. -/
theorem p0_leave_last_member_keeps_room :
    mapFind "1234" c2State.rooms =
      some ⟨"1234", "Plans", some "1234",
        [⟨some "system", none, "alice created and joined the room.", 1, none⟩], []⟩ ∧
    (⟨"1234", "Plans", true⟩ : RoomSummary) ∈ P0.getRoomList c2State ∧
    mapFind "s1" c2State.sockets = some ⟨some "alice", none⟩ := by decide

/-- The `server.js` result of a fresh unnamed connection sending
`create room` with name "Plans" and PIN "1234" at `Date.now() = 5`. -/
def c3Result : SJ.State × List Notify :=
  SJ.step (SJ.step SJ.initState "s1" .connect 0).1 "s1" (.createRoom "Plans" "1234") 5

/-- C3: in `server.js`, `create room` never checks that the session has a
display name; the room is registered first and only the auto-join is then
rejected.  A fresh unnamed connection that sends `create room` therefore
leaves the new empty room registered (and announced to everyone) even though
the transition is rejected with the please-set-your-username feedback —
a partial state change for a rejected transition. -/
theorem sj_unnamed_create_registers_room :
    mapFind "room-5" c3Result.1.rooms = some ⟨"Plans", some "1234", [], []⟩ ∧
    mapFind "s1" c3Result.1.users = some ⟨none, none⟩ ∧
    c3Result.2 = [.toSocket "s1" (.feedback "Room \x27Plans\x27 created successfully! PIN: 1234"),
             .toAll (.updateRoomList [⟨"general", "General", false⟩, ⟨"room-5", "Plans", true⟩]),
             .toSocket "s1" (.feedback "Please set your username first.")] := by decide

/-! ## Claim C4 -/

namespace SJ

theorem joinRoom_keeps_username (st : State) (sid rid : String) (pin : Option String)
    (now : Nat) {u : UserData} (hu : mapFind sid st.users = some u) :
    ∃ u1, mapFind sid (joinRoom st sid rid pin now).1.users = some u1 ∧
      u1.username = u.username := by
  rcases hname : u.username with _ | n
  · exact ⟨u, by simp only [joinRoom, hu, hname], hname⟩
  · rcases hr : mapFind rid st.rooms with _ | room
    · exact ⟨u, by simp only [joinRoom, hu, hname, hr], hname⟩
    · by_cases hpin : (truthy room.pin && room.pin ≠ pin && rid ≠ GENERAL_ROOM_ID) = true
      · exact ⟨u, by simp only [joinRoom, hu, hname, hr]; rw [if_pos hpin]; exact hu, hname⟩
      · by_cases hin : u.currentRoomId = some rid
        · exact ⟨u, by simp only [joinRoom, hu, hname, hr]; rw [if_neg hpin, if_pos hin]; exact hu,
            hname⟩
        · have hgen : ∀ l, mapFind sid (mapSet sid
              ({ username := some n, currentRoomId := some rid } : UserData) l) =
              some ({ username := some n, currentRoomId := some rid } : UserData) :=
            fun l => by rw [mapFind_set, if_pos rfl]
          refine ⟨{ username := some n, currentRoomId := some rid }, ?_, rfl⟩
          simp only [joinRoom, hu, hname, hr]
          rw [if_neg hpin, if_neg hin]
          exact hgen _

end SJ

/-- C4 (amended): `set initial username` in `server.js` trims its input,
fails when the trimmed name is empty, fails with the name-taken feedback
exactly when *some* session that currently occupies a room — possibly the
requesting session itself — holds the trimmed name (a name held only by a
lobby session does not block), and otherwise sets the session's display name
to the trimmed name (and auto-joins the general room). -/
theorem sj_claim_name_spec (st : SJ.State) (sid name : String) (now : Nat) :
    (jsTrim name = "" →
      SJ.setInitialUsername st sid name now =
        (st, [.toSocket sid (.feedback "Username cannot be empty.")])) ∧
    (jsTrim name ≠ "" →
      (∃ p ∈ st.users, p.2.username = some (jsTrim name) ∧ p.2.currentRoomId ≠ none) →
      SJ.setInitialUsername st sid name now =
        (st, [.toSocket sid (.feedback ("Username \x27" ++ jsTrim name ++
          "\x27 is already taken. Please choose another."))])) ∧
    (jsTrim name ≠ "" →
      ¬ (∃ p ∈ st.users, p.2.username = some (jsTrim name) ∧ p.2.currentRoomId ≠ none) →
      ∀ u0, mapFind sid st.users = some u0 →
        ∃ u1, mapFind sid (SJ.setInitialUsername st sid name now).1.users = some u1 ∧
          u1.username = some (jsTrim name)) := by
  refine ⟨?_, ?_, ?_⟩
  · intro he
    simp only [SJ.setInitialUsername]
    rw [if_pos he]
  · intro hne htaken
    have hb : (st.users.any fun p =>
        p.2.username = some (jsTrim name) && p.2.currentRoomId ≠ none) = true := by
      simp only [List.any_eq_true, Bool.and_eq_true, decide_eq_true_eq]
      obtain ⟨p, hp, h1, h2⟩ := htaken
      exact ⟨p, hp, h1, h2⟩
    simp only [SJ.setInitialUsername]
    rw [if_neg hne, if_pos hb]
  · intro hne htaken u0 hu0
    have hb : ¬ (st.users.any fun p =>
        p.2.username = some (jsTrim name) && p.2.currentRoomId ≠ none) = true := by
      simp only [List.any_eq_true, Bool.and_eq_true, decide_eq_true_eq]
      intro hx
      obtain ⟨p, hp, h1, h2⟩ := hx
      exact htaken ⟨p, hp, h1, h2⟩
    simp only [SJ.setInitialUsername, hu0]
    rw [if_neg hne, if_neg hb]
    obtain ⟨u1, hfind1, hname1⟩ := SJ.joinRoom_keeps_username
      { st with users := mapSet sid { u0 with username := some (jsTrim name) } st.users }
      sid SJ.GENERAL_ROOM_ID none now
      (show mapFind sid (mapSet sid ({ u0 with username := some (jsTrim name) } : SJ.UserData)
        st.users) = some { u0 with username := some (jsTrim name) } from by
        rw [mapFind_set, if_pos rfl])
    exact ⟨u1, hfind1, by rw [hname1]⟩

/-- Witness for `sj_claim_name_spec`: an all-whitespace name is rejected as
empty at a concrete state. -/
theorem sj_claim_name_spec_witness :
    SJ.setInitialUsername SJ.initState "s1" " " 0 =
      (SJ.initState, [.toSocket "s1" (.feedback "Username cannot be empty.")]) :=
  (sj_claim_name_spec SJ.initState "s1" " " 0).1 (by decide)

/-- C4 (counterexample): the claim as stated fails on `server.js`, because
the taken-check also counts the requesting session itself.  After one socket
claims "alice" (and auto-joins the general room), the same socket re-claiming
"alice" is rejected with the name-taken feedback even though no *other*
session holds that name ("s1" is the only session at all). -/
theorem sj_claim_name_self_taken_counterexample :
    let st2 := (SJ.step (SJ.step SJ.initState "s1" .connect 0).1
      "s1" (.setInitialUsername "alice") 1).1
    st2.users.map Prod.fst = ["s1"] ∧
    SJ.step st2 "s1" (.setInitialUsername "alice") 2 =
      (st2, [.toSocket "s1" (.feedback
        "Username \x27alice\x27 is already taken. Please choose another.")]) := by decide

/-! ## Claim C7 -/

/-- C7 (amended): `change username` in `server.js` fails with feedback when the
trimmed new name is empty, or identical to the current name, or held by a
session that currently occupies a room (same uniqueness rule as claim-name,
except that entries holding the requester\x27s own current name are skipped);
otherwise it updates the session\x27s name.  There is **no** `NotNamedYet`
check: the unnamed case is exercised by
`sj_rename_unnamed_counterexample`. -/
theorem sj_change_username_spec (st : SJ.State) (sid name : String) (now : Nat) :
    (jsTrim name = "" →
      SJ.changeUsername st sid name now =
        (st, [.toSocket sid (.feedback "New username cannot be empty.")])) ∧
    (∀ u0, mapFind sid st.users = some u0 → jsTrim name ≠ "" →
      some (jsTrim name) = u0.username →
      SJ.changeUsername st sid name now =
        (st, [.toSocket sid (.feedback "That is already your username.")])) ∧
    (∀ u0, mapFind sid st.users = some u0 → jsTrim name ≠ "" →
      some (jsTrim name) ≠ u0.username →
      (∃ p ∈ st.users, p.2.username = some (jsTrim name) ∧ p.2.currentRoomId ≠ none) →
      SJ.changeUsername st sid name now =
        (st, [.toSocket sid (.feedback ("Username \x27" ++ jsTrim name ++
          "\x27 is already taken. Please choose another."))])) ∧
    (∀ u0, mapFind sid st.users = some u0 → jsTrim name ≠ "" →
      some (jsTrim name) ≠ u0.username →
      ¬ (∃ p ∈ st.users, p.2.username = some (jsTrim name) ∧ p.2.currentRoomId ≠ none) →
      mapFind sid (SJ.changeUsername st sid name now).1.users =
        some { u0 with username := some (jsTrim name) } ∧
      Notify.toSocket sid (.usernameUpdated (jsTrim name)) ∈
        (SJ.changeUsername st sid name now).2) := by
  refine ⟨?_, ?_, ?_, ?_⟩
  · intro he
    simp only [SJ.changeUsername]
    rw [if_pos he]
  · intro u0 hu0 hne hident
    simp only [SJ.changeUsername, hu0]
    rw [if_neg hne, if_pos hident]
  · intro u0 hu0 hne hident htaken
    have hb : (st.users.any fun p =>
        p.2.username = some (jsTrim name) && p.2.currentRoomId ≠ none
          && p.2.username ≠ u0.username) = true := by
      simp only [List.any_eq_true, Bool.and_eq_true, decide_eq_true_eq]
      obtain ⟨p, hp, h1, h2⟩ := htaken
      exact ⟨p, hp, ⟨h1, h2⟩, by rw [h1]; exact fun hx => hident hx⟩
    simp only [SJ.changeUsername, hu0]
    rw [if_neg hne, if_neg hident, if_pos hb]
  · intro u0 hu0 hne hident htaken
    have hb : ¬ (st.users.any fun p =>
        p.2.username = some (jsTrim name) && p.2.currentRoomId ≠ none
          && p.2.username ≠ u0.username) = true := by
      simp only [List.any_eq_true, Bool.and_eq_true, decide_eq_true_eq]
      intro hx
      obtain ⟨p, hp, ⟨h1, h2⟩, h3⟩ := hx
      exact htaken ⟨p, hp, h1, h2⟩
    have hgen : ∀ (v : SJ.UserData) (l : List (String × SJ.UserData)),
        mapFind sid (mapSet sid v l) = some v :=
      fun v l => by rw [mapFind_set, if_pos rfl]
    simp only [SJ.changeUsername, hu0]
    rw [if_neg hne, if_neg hident, if_neg hb]
    rcases hcr : u0.currentRoomId with _ | cur
    · simp only []
      exact ⟨hgen _ _, by simp⟩
    · simp only []
      refine ⟨?_, ?_⟩
      · split
        · exact hgen _ _
        · exact hgen _ _
      · split
        · simp
        · simp

/-- Witness for `sj_change_username_spec`: an all-whitespace new name is
rejected as empty at a concrete state. -/
theorem sj_change_username_spec_witness :
    SJ.changeUsername SJ.initState "s1" " " 0 =
      (SJ.initState, [.toSocket "s1" (.feedback "New username cannot be empty.")]) :=
  (sj_change_username_spec SJ.initState "s1" " " 0).1 (by decide)

/-- C7 (counterexample): `server.js` has no `NotNamedYet` check in the
`change username` handler.  A freshly connected socket — whose session has no
display name at all — renames to "bob" and the rename *succeeds* with a
`usernameUpdated` notification, instead of failing with `NotNamedYet`. -/
theorem sj_rename_unnamed_counterexample :
    let st1 := (SJ.step SJ.initState "s1" .connect 0).1
    let res := SJ.step st1 "s1" (.changeUsername "bob") 1
    mapFind "s1" st1.users = some ⟨none, none⟩ ∧
    mapFind "s1" res.1.users = some ⟨some "bob", none⟩ ∧
    res.2 = [.toSocket "s1" (.usernameUpdated "bob")] := by decide

/-! ## Claim C5 -/

/-- C5 (amended, `part_000` side): in the `part_000` variant, `switch room`
really does bypass the PIN: any named socket not already in the target room
switches into any existing room — switch-room takes no PIN and checks
none. -/
theorem p0_switch_room_no_pin_check (st : P0.State) (sid newRoomId : String) (now : Nat)
    (sock : P0.Sock) (hs : mapFind sid st.sockets = some sock)
    (hn : ¬ sock.username = none)
    (hr : (mapFind newRoomId st.rooms).isSome = true)
    (hni : ¬ sock.currentRoomId = some newRoomId) :
    ∃ sock1, mapFind sid (P0.switchRoom st sid newRoomId now).1.sockets = some sock1 ∧
      sock1.currentRoomId = some newRoomId := by
  rcases hrm : mapFind newRoomId st.rooms with _ | room
  · rw [hrm] at hr; exact absurd hr (by simp)
  have hgen : ∀ l, mapFind sid (mapSet sid
      ({ sock with currentRoomId := some newRoomId } : P0.Sock) l) =
      some { sock with currentRoomId := some newRoomId } :=
    fun l => by rw [mapFind_set, if_pos rfl]
  refine ⟨{ sock with currentRoomId := some newRoomId }, ?_, rfl⟩
  simp only [P0.switchRoom, hs, hrm]
  rw [if_neg hn, if_neg hni]
  exact hgen _

/-- Witness for `p0_switch_room_no_pin_check` at a concrete state: bob is in
the lobby, the room `"1234"` is PIN-protected, and bob still switches in
without a PIN. -/
theorem p0_switch_room_no_pin_check_witness :
    let st3 :=
      (P0.step (P0.step (P0.step (P0.step (P0.step P0.initState
        "s1" .connect 0).1
        "s1" (.setInitialUsername "alice") 1).1
        "s1" (.createRoom "Plans" (some "1234")) 2).1
        "s2" .connect 3).1
        "s2" (.setInitialUsername "bob") 4).1
    (mapFind "s2" st3.sockets = some ⟨some "bob", none⟩ ∧
      (mapFind "1234" st3.rooms).isSome = true ∧
      ∃ sock1, mapFind "s2" (P0.switchRoom st3 "s2" "1234" 5).1.sockets = some sock1 ∧
        sock1.currentRoomId = some "1234") := by
  refine ⟨by decide, by decide, ?_⟩
  exact p0_switch_room_no_pin_check _ "s2" "1234" 5 ⟨some "bob", none⟩
    (by decide) (by decide) (by decide) (by decide)

/-- C5 (counterexample): in `server.js` the claim fails, because `switch
room` calls `joinRoom` with the default `pin = null`, and `joinRoom` *does*
check the room\x27s PIN.  Concretely: alice is named and sits in `general`;
the PIN-protected room `room-7` exists; her switch to it is rejected with
"Incorrect PIN for this room." even though she satisfies every hypothesis of
the claim. -/
theorem sj_switch_room_pin_rejected_counterexample :
    let st3 :=
      (SJ.step (SJ.step (SJ.step SJ.initState
        "s1" .connect 0).1
        "s1" (.setInitialUsername "alice") 1).1
        "s1" (.createRoom "Plans" "1234") 7).1
    (mapFind "s1" st3.users = some ⟨some "alice", some "general"⟩ ∧
      (mapFind "room-7" st3.rooms).isSome = true ∧
      SJ.step st3 "s1" (.switchRoom "room-7") 8 =
        (st3, [.toSocket "s1" (.feedback "Incorrect PIN for this room.")])) := by decide

/-! ## Claim C6 -/

/-- The `part_000` result of alice (socket `s1`) creating a room with name
"Plans" and PIN "1234" after connecting and naming herself. -/
def c6FirstCreate : P0.State × List Notify :=
  P0.step (P0.step (P0.step P0.initState
    "s1" .connect 0).1 "s1" (.setInitialUsername "alice") 1).1
    "s1" (.createRoom "Plans" (some "1234")) 2

/-- The state after alice then disconnects: her emptied room is deleted. -/
def c6AfterDisconnect : P0.State :=
  (P0.step c6FirstCreate.1 "s1" .disconnect 3).1

/-- The result of bob (socket `s2`) then connecting, naming himself and
creating a room with the *same* PIN "1234". -/
def c6SecondCreate : P0.State × List Notify :=
  P0.step (P0.step (P0.step c6AfterDisconnect
    "s2" .connect 4).1 "s2" (.setInitialUsername "bob") 5).1
    "s2" (.createRoom "Schemes" (some "1234")) 6

/-- C6 (refuted): room-id generation is not collision-free by construction.
In `part_000` the "generated" id is just the user-supplied trimmed PIN, so two
distinct successful create-room transitions can yield the *same* id: alice
creates a room with PIN "1234" (registered under id "1234"), her disconnect
deletes the emptied room, and bob\x27s later create with the same PIN succeeds
and registers id "1234" again. -/
theorem p0_create_room_id_reuse :
    (mapFind "1234" c6FirstCreate.1.rooms).map P0.Room.name = some "Plans" ∧
    mapFind "1234" c6AfterDisconnect.rooms = none ∧
    (mapFind "1234" c6SecondCreate.1.rooms).map P0.Room.name = some "Schemes" := by decide

/-! ## Claim C8 -/

/-- C8 (confirmed): in both variants the room list sent to clients carries,
per room, only the id, the display name and a boolean saying whether a PIN is
required; and it is a function of those three fields alone — two states whose
rooms agree on (id, name, pin-presence) produce identical room lists, however
their secret PIN values differ, so the secret value never appears in any
field of the list. -/
theorem room_list_hides_secrets :
    (∀ st : SJ.State, SJ.availableRooms st =
      st.rooms.map (fun p => { id := p.1, name := p.2.name, hasPin := p.2.pin.isSome })) ∧
    (∀ st st2 : SJ.State,
      st.rooms.map (fun p => (p.1, p.2.name, p.2.pin.isSome)) =
        st2.rooms.map (fun p => (p.1, p.2.name, p.2.pin.isSome)) →
      SJ.availableRooms st = SJ.availableRooms st2) ∧
    (∀ st : P0.State, P0.getRoomList st =
      st.rooms.map (fun p => { id := p.2.id, name := p.2.name, hasPin := truthy p.2.pin })) ∧
    (∀ st st2 : P0.State,
      st.rooms.map (fun p => (p.2.id, p.2.name, truthy p.2.pin)) =
        st2.rooms.map (fun p => (p.2.id, p.2.name, truthy p.2.pin)) →
      P0.getRoomList st = P0.getRoomList st2) := by
  have keySJ : ∀ (s : SJ.State), SJ.availableRooms s =
      (s.rooms.map (fun p => (p.1, p.2.name, p.2.pin.isSome))).map
        (fun q => { id := q.1, name := q.2.1, hasPin := q.2.2 }) := by
    intro s
    simp only [SJ.availableRooms, List.map_map]
    rfl
  have keyP0 : ∀ (s : P0.State), P0.getRoomList s =
      (s.rooms.map (fun p => (p.2.id, p.2.name, truthy p.2.pin))).map
        (fun q => { id := q.1, name := q.2.1, hasPin := q.2.2 }) := by
    intro s
    simp only [P0.getRoomList, List.map_map]
    rfl
  refine ⟨fun st => rfl, ?_, fun st => rfl, ?_⟩
  · intro st st2 h
    rw [keySJ, keySJ, h]
  · intro st st2 h
    rw [keyP0, keyP0, h]

/-- Witness for `room_list_hides_secrets`: two concrete `server.js` states
whose only difference is the secret PIN value of room "r" produce the same
room list. -/
theorem room_list_hides_secrets_witness :
    SJ.availableRooms
      { users := [], userSocketRooms := []
        rooms := [("general", ⟨"General", none, [], []⟩), ("r", ⟨"R", some "1111", [], []⟩)] } =
    SJ.availableRooms
      { users := [], userSocketRooms := []
        rooms := [("general", ⟨"General", none, [], []⟩), ("r", ⟨"R", some "2222", [], []⟩)] } :=
  room_list_hides_secrets.2.1 _ _ (by decide)

/-! ## Claim C9 -/

/-- The `part_000` state in which alice (socket `s1`) has created — and so
currently sits in — the room with id "1234". -/
def c9Before : P0.State :=
  (P0.step (P0.step (P0.step P0.initState
    "s1" .connect 0).1 "s1" (.setInitialUsername "alice") 1).1
    "s1" (.createRoom "Plans" (some "1234")) 2).1

/-- The result of alice then emitting a chat message whose client-supplied
`data.room` field says "general" while her current room is "1234". -/
def c9Result : P0.State × List Notify :=
  P0.step c9Before "s1" (.chatMessage "general" "hi" 5) 6

/-- C9 (refuted for `part_000`): the chat-message handler appends the event
to the sender\x27s *current* room\x27s history but broadcasts it to the room
named by the client-supplied `data.room` field.  Concretely: alice\x27s
current room is "1234"; she emits a chat message with `room = "general"`;
the event lands in room "1234"\x27s history (whose length grows by one while
"general"\x27s history is untouched) yet the only notification goes to room
"general" — so the members of her current room, herself included, never
receive the broadcast. -/
theorem p0_chat_message_wrong_room :
    mapFind "s1" c9Before.sockets = some ⟨some "alice", some "1234"⟩ ∧
    (mapFind "1234" c9Result.1.rooms).map (fun rm => rm.history.getLast?) =
      some (some ⟨some "message", some "alice", "hi", 5, some "general"⟩) ∧
    (mapFind "1234" c9Result.1.rooms).map (fun rm => rm.history.length) =
      (mapFind "1234" c9Before.rooms).map (fun rm => rm.history.length + 1) ∧
    (mapFind "general" c9Result.1.rooms).map (fun rm => rm.history.length) =
      (mapFind "general" c9Before.rooms).map (fun rm => rm.history.length) ∧
    c9Result.2 = [.toRoom "general" (.chatMessage
      ⟨some "message", some "alice", "hi", 5, some "general"⟩)] := by decide

/-! ## Claim C10 -/

/-- The `part_000` result of bob (socket `s2`) joining by PIN the room
"1234" that alice created, both having set their usernames first. -/
def c10Join : P0.State × List Notify :=
  P0.step (P0.step (P0.step (P0.step (P0.step (P0.step P0.initState
    "s1" .connect 0).1 "s1" (.setInitialUsername "alice") 1).1
    "s1" (.createRoom "Plans" (some "1234")) 2).1
    "s2" .connect 3).1 "s2" (.setInitialUsername "bob") 4).1
    "s2" (.joinRoomByPin "1234") 5

/-- C10 (refuted for `part_000`): on a successful join-by-PIN the join system
event *is* appended to the room\x27s history before the snapshot is sent — the
joiner\x27s `roomJoinedSuccess` already contains bob\x27s own join event — but
the existing members never receive that join event as a broadcast: the only
room-wide notification is a `userList` refresh, and no `chatMessage`
broadcast to the room is emitted at all.  Concretely, bob joins alice\x27s
room "1234" and the complete notification list is the joiner\x27s snapshot
plus a user-list update. -/
theorem p0_join_event_not_broadcast :
    c10Join.2 = [.toSocket "s2" (.roomJoinedSuccess "Plans" "1234"
        [⟨some "system", none, "alice created and joined the room.", 2, none⟩,
         ⟨some "system", none, "bob has joined the room.", 5, none⟩]
        ["alice", "bob"]),
      .toRoom "1234" (.userList ["alice", "bob"])] ∧
    (c10Join.2.filter (fun n => match n with
        | .toRoom _ (.chatMessage _) => true
        | .toRoomExcept _ _ (.chatMessage _) => true
        | _ => false)) = [] := by decide
